import Mathlib

set_option maxRecDepth 100000

/-!
Shallow embedding of the procedural maze generation engine in
src/client/src/utils/MazeGenerator.ts (class MazeGenerator), together with
theorems settling the specification claims about it.

Modelling conventions, chosen to follow JavaScript semantics of the source:
  - A grid is a list of rows; a row is a list of tiles.  JavaScript arrays
    grow when an element is written past the end (`row[x] = v` with
    `x >= row.length` extends the row, filling any gap with holes that read
    back as `undefined`); `Tile.undef` models both `undefined` reads and such
    holes.  Writing at a negative index creates a non-element property in
    JavaScript; no code path of the source ever reads a negative index, so
    such writes are modelled as no-ops.
  - Reading `layout[y]` for `y` outside `[0, layout.length)` yields
    `undefined`, and then using it as an array (`layout[y][x]` or
    `layout[y][x] = v`) throws a TypeError.  Fallible operations return
    `Except JsError`.
  - Loops whose iteration count is not syntactically bounded are given
    explicit fuel; exhausting the fuel produces the distinct
    `JsError.fuelOut`, which the real program (which would simply keep
    running) can never produce.
  - Numbers are modelled exactly: coordinates and the PRNG state as `Int`,
    the PRNG output `state / 233280` and the density thresholds as `Rat`.
    All numbers the source manipulates on these paths are integers or exact
    small rationals, so double rounding is not observable.
  - The trigonometric pseudo-noise of `generatePerlinCaves` (Math.sin at
    three frequencies combined with weights 1, 0.5, 0.25) is floating-point;
    it is modelled as an explicit function parameter `noiseC` giving the
    combined value at each cell.  No claim depends on its concrete values.
-/

namespace RPS

/-- Tile states of the grid, mirroring `enum TileType` in Types.ts, plus
`undef`, which models the JavaScript `undefined` produced by out-of-range
reads and array holes. -/
inductive Tile where
  | empty
  | wall
  | floor
  | spawn
  | keySpawn
  | door
  | exitTile
  | undef
deriving DecidableEq, Repr

abbrev Vec := Int × Int

abbrev Row := List Tile

abbrev Grid := List Row

/-- Errors observable from the embedded code.  `typeError` models a
JavaScript TypeError (property access or assignment on `undefined`);
`fuelOut` is the modelling artefact for exhausted loop fuel;
`infeasibleLevel` models the distinct InfeasibleLevelError described by the
specification, which no code path of the source ever constructs. -/
inductive JsError where
  | typeError
  | fuelOut
  | infeasibleLevel
deriving DecidableEq, Repr

instance {ε α : Type} [DecidableEq ε] [DecidableEq α] : DecidableEq (Except ε α) :=
  fun a b =>
  match a, b with
  | .error e, .error f =>
    if h : e = f then .isTrue (by rw [h]) else .isFalse (by simp [h])
  | .error _, .ok _ => .isFalse (by simp)
  | .ok _, .error _ => .isFalse (by simp)
  | .ok x, .ok y =>
    if h : x = y then .isTrue (by rw [h]) else .isFalse (by simp [h])

/-! ## Seeded random source (createSeededRandom) -/

/-- One step of the linear congruential generator in `createSeededRandom`:
`state = (state * 9301 + 49297) % 233280` with the JavaScript remainder
operator, which truncates toward zero (sign of the dividend). -/
def lcgNext (s : Int) : Int := (s * 9301 + 49297).tmod 233280

/-- The float value `state / 233280` returned by one call of `rng()`. -/
def lcgVal (s : Int) : ℚ := (s : ℚ) / 233280

/-- The state after `n` calls of `rng()` starting from seed `s`. -/
def lcgIter (s : Int) : Nat → Int
  | 0 => s
  | n + 1 => lcgNext (lcgIter s n)

/-- Advance the generator once and return `Math.floor(rng() * n)` together
with the new state.  Since `rng()` returns the exact rational
`state / 233280`, the floor equals floor division of `state * n` by 233280. -/
def drawIdx (s : Int) (n : Int) : Int × Int :=
  let s1 := lcgNext s
  ((s1 * n).fdiv 233280, s1)

/-- Advance the generator once and return the comparison `rng() < d`
together with the new state.  The comparison `state / 233280 < d` is
computed in cleared-denominator integer form; `drawLT_spec` below proves it
equal to the rational comparison of the source. -/
def drawLT (s : Int) (d : ℚ) : Bool × Int :=
  let s1 := lcgNext s
  (decide (s1 * (d.den : Int) < d.num * 233280), s1)

/-! ## JavaScript-faithful grid primitives -/

/-- Read `row[x]`: out-of-range (including negative) element reads give
`undefined`. -/
def rowGet (r : Row) (x : Int) : Tile :=
  if 0 ≤ x then r.getD x.toNat Tile.undef else Tile.undef

/-- Write `row[x] = v`.  In range it updates; past the end it extends the
row, filling the gap with holes; at a negative index it sets a non-element
property, which nothing in the source ever reads, hence a no-op. -/
def rowSet (r : Row) (x : Int) (v : Tile) : Row :=
  if x < 0 then r
  else if x.toNat < r.length then r.set x.toNat v
  else r ++ List.replicate (x.toNat - r.length) Tile.undef ++ [v]

/-- Read `layout[y]` as a row, `none` when the read yields `undefined`. -/
def gridRow (g : Grid) (y : Int) : Option Row :=
  if 0 ≤ y then g.get? y.toNat else none

/-- Total read of `layout[y][x]` for call sites where the source has already
established that row `y` exists (loop bounds); on a missing row it returns
`undefined` rather than raising. -/
def cellAt (g : Grid) (x y : Int) : Tile :=
  match gridRow g y with
  | none => Tile.undef
  | some r => rowGet r x

/-- Fallible read of `layout[y][x]`: if `layout[y]` is `undefined` the
subsequent indexing throws a TypeError. -/
def readCell (g : Grid) (x y : Int) : Except JsError Tile :=
  match gridRow g y with
  | none => .error .typeError
  | some r => .ok (rowGet r x)

/-- Fallible write `layout[y][x] = v`: assignment through an `undefined` row
throws a TypeError. -/
def writeCell (g : Grid) (x y : Int) (v : Tile) : Except JsError Grid :=
  match gridRow g y with
  | none => .error .typeError
  | some r => .ok (g.set y.toNat (rowSet r x v))

/-- Total write for call sites where the row provably exists; identical to
`writeCell` there, and a no-op on a missing row. -/
def setCellQ (g : Grid) (x y : Int) (v : Tile) : Grid :=
  match gridRow g y with
  | none => g
  | some r => g.set y.toNat (rowSet r x v)

/-- Read `arr[i]` and immediately use the element, as every indexing site of
the source does; `undefined` elements make that use throw. -/
def indexList {α : Type} (l : List α) (i : Int) : Except JsError α :=
  if 0 ≤ i then
    match l.get? i.toNat with
    | some a => .ok a
    | none => .error .typeError
  else .error .typeError

/-- The integer list `[a, a+1, ..., b-1]`, the index set of a JavaScript
`for (let i = a; i < b; i++)` loop. -/
def intRange (a b : Int) : List Int :=
  (List.range (b - a).toNat).map (fun i => a + Int.ofNat i)

/-- The integer list `a, a+step, ...` of indices below `b`, the index set of
`for (let i = a; i < b; i += step)`. -/
def stepRange (a b step : Int) : List Int :=
  if step ≤ 0 then []
  else (List.range (((b - a + step - 1).fdiv step).toNat)).map
    (fun i => a + step * Int.ofNat i)

/-! ## Visited matrices (boolean[][]) -/

abbrev BoolGrid := List (List Bool)

def mkBoolGrid (w h : Int) : BoolGrid :=
  List.replicate h.toNat (List.replicate w.toNat false)

/-- Read `visited[y][x]`; all read sites in the source are bounds-guarded. -/
def boolGet (v : BoolGrid) (x y : Int) : Bool :=
  if 0 ≤ y ∧ 0 ≤ x then ((v.getD y.toNat []).getD x.toNat false) else false

/-- Write `visited[y][x] = true`; all write sites are bounds-guarded. -/
def boolSet (v : BoolGrid) (x y : Int) : BoolGrid :=
  if 0 ≤ y ∧ 0 ≤ x ∧ y.toNat < v.length then
    v.set y.toNat ((v.getD y.toNat []).set x.toNat true)
  else v

/-! ## Options (MazeGenerationOptions) -/

inductive MazeAlgorithm where
  | recursiveBacktracking
  | cellularAutomata
  | binaryTree
  | perlinCaves
deriving DecidableEq, Repr

structure MazeGenerationOptions where
  width : Int
  height : Int
  algorithm : MazeAlgorithm
  seed : Option Int := none
  density : Option ℚ := none
  iterations : Option Int := none
  minRoomSize : Option Int := none
  maxRoomSize : Option Int := none
  roomCount : Option Int := none
deriving DecidableEq, Repr

/-- The JavaScript `a || d` default for numeric options: `undefined` and `0`
are both falsy, so both fall back to the default. -/
def orFalsy (o : Option Int) (d : Int) : Int :=
  match o with
  | none => d
  | some k => if k = 0 then d else k

/-- The JavaScript destructuring default `{ density = 0.45 }`: only
`undefined` falls back; `0` is kept. -/
def orUndef {α : Type} (o : Option α) (d : α) : α := o.getD d

/-- The seed stored by the constructor: `this.seed = seed || Date.now()`.
`now` stands for the value of `Date.now()` at construction time. -/
def effectiveSeed (seed : Option Int) (now : Int) : Int := orFalsy seed now

/-! ## Recursive backtracking (generateRecursiveBacktracking, addRandomRooms,
connectRoomToMaze) -/

/-- Fresh `height x width` grid with every cell `t`, as each algorithm
builds it with its double initialisation loop. -/
def initGrid (w h : Int) (t : Tile) : Grid :=
  List.replicate h.toNat (List.replicate w.toNat t)

/-- The direction table of the DFS carve: North, East, South, West, two
cells away. -/
def rbDirections : List Vec := [(0, -2), (2, 0), (0, 2), (-2, 0)]

/-- Unvisited neighbours two cells away that stay strictly inside the inner
bounds, in the direction-table order. -/
def rbNeighbors (w h : Int) (visited : BoolGrid) (c : Vec) : List Vec :=
  rbDirections.filterMap (fun d =>
    let nx := c.1 + d.1
    let ny := c.2 + d.2
    if nx > 0 ∧ nx < w - 1 ∧ ny > 0 ∧ ny < h - 1 ∧ ¬ boolGet visited nx ny then
      some (nx, ny)
    else none)

/-- The DFS carve loop (`while (stack.length > 0)`), with the stack kept
head-first (the JavaScript array top is its last element).  Each iteration
either pushes a newly visited cell or pops, so the loop terminates; the fuel
only bounds the modelled iteration count. -/
def rbLoop (w h : Int) :
    Nat → Grid → BoolGrid → List Vec → Int → Except JsError (Grid × Int)
  | 0, _, _, _, _ => .error .fuelOut
  | _ + 1, g, _, [], s => .ok (g, s)
  | fuel + 1, g, visited, cur :: rest, s =>
    let ns := rbNeighbors w h visited cur
    if ns.length > 0 then do
      let (i, s1) := drawIdx s ns.length
      let next ← indexList ns i
      let wallX := cur.1 + (next.1 - cur.1) / 2
      let wallY := cur.2 + (next.2 - cur.2) / 2
      let g1 ← writeCell g wallX wallY Tile.floor
      let g2 ← writeCell g1 next.1 next.2 Tile.floor
      rbLoop w h fuel g2 (boolSet visited next.1 next.2) (next :: cur :: rest) s1
    else
      rbLoop w h fuel g visited rest s

/-- Fuel sufficient for any DFS run: each cell is pushed at most once, so
there are at most `w*h` push iterations and `w*h + 1` pop iterations. -/
def rbFuel (w h : Int) : Nat := 2 * (w.toNat * h.toNat) + 4

/-- Scan the four perimeter strips of a room for a floor cell two steps
outside, collecting candidate connector cells in source order: for each x
the top then bottom checks, then for each y the left then right checks. -/
def roomConnections (g : Grid) (roomX roomY roomW roomH : Int) :
    Except JsError (List Vec) := do
  let hh : Int := g.length
  let ww : Int := (g.headD []).length
  let top ← (intRange roomX (roomX + roomW)).foldlM (fun acc x => do
    let acc1 ← do
      if roomY > 1 then
        let t ← readCell g x (roomY - 2)
        pure (if t = Tile.floor then acc ++ [(x, roomY - 1)] else acc)
      else pure acc
    if roomY + roomH < hh - 1 then
      let t ← readCell g x (roomY + roomH + 1)
      pure (if t = Tile.floor then acc1 ++ [(x, roomY + roomH)] else acc1)
    else pure acc1) []
  (intRange roomY (roomY + roomH)).foldlM (fun acc y => do
    let acc1 ← do
      if roomX > 1 then
        let t ← readCell g (roomX - 2) y
        pure (if t = Tile.floor then acc ++ [(roomX - 1, y)] else acc)
      else pure acc
    if roomX + roomW < ww - 1 then
      let t ← readCell g (roomX + roomW + 1) y
      pure (if t = Tile.floor then acc1 ++ [(roomX + roomW, y)] else acc1)
    else pure acc1) top

/-- Carve one connector from the room to the maze when a candidate exists
(connectRoomToMaze). -/
def connectRoomToMaze (g : Grid) (roomX roomY roomW roomH : Int) (s : Int) :
    Except JsError (Grid × Int) := do
  let connections ← roomConnections g roomX roomY roomW roomH
  if connections.length > 0 then do
    let (i, s1) := drawIdx s connections.length
    let c ← indexList connections i
    let g1 ← writeCell g c.1 c.2 Tile.floor
    pure (g1, s1)
  else pure (g, s)

/-- Inject `count` random rooms (addRandomRooms).  Carving a room row that
does not exist, which happens for room sizes close to the grid size, throws
just as the JavaScript assignment through `undefined` does. -/
def addRandomRooms (g : Grid) (minSize maxSize count : Int) (s : Int) :
    Except JsError (Grid × Int) := do
  match g with
  | [] => .error .typeError
  | r0 :: _ =>
    let hh : Int := g.length
    let ww : Int := r0.length
    (List.range count.toNat).foldlM (fun st _ => do
      let (g0, s0) := st
      let (a, s1) := drawIdx s0 (maxSize - minSize + 1)
      let roomW := minSize + a
      let (b, s2) := drawIdx s1 (maxSize - minSize + 1)
      let roomH := minSize + b
      let (c, s3) := drawIdx s2 (ww - roomW - 2)
      let roomX := 1 + c
      let (d, s4) := drawIdx s3 (hh - roomH - 2)
      let roomY := 1 + d
      let g1 ← (intRange roomY (roomY + roomH)).foldlM (fun gg y =>
        (intRange roomX (roomX + roomW)).foldlM (fun gg2 x =>
          writeCell gg2 x y Tile.floor) gg) g0
      connectRoomToMaze g1 roomX roomY roomW roomH s4) (g, s)

/-- The whole recursive-backtracking strategy: DFS carve from (1,1), then
room injection. -/
def generateRecursiveBacktracking (opts : MazeGenerationOptions) (s : Int) :
    Except JsError (Grid × Int) := do
  let w := opts.width
  let h := opts.height
  let g0 := initGrid w h Tile.wall
  let g1 ← writeCell g0 1 1 Tile.floor
  let visited := boolSet (mkBoolGrid w h) 1 1
  let (g2, s1) ← rbLoop w h (rbFuel w h) g1 visited [(1, 1)] s
  addRandomRooms g2 (orFalsy opts.minRoomSize 3) (orFalsy opts.maxRoomSize 7)
    (orFalsy opts.roomCount 3) s1

/-! ## Cellular automata (generateCellularAutomata,
applyCellularAutomataRules) -/

/-- Count of wall cells in the 3 x 3 block centred at `(x, y)` — the source
iterates `dy` and `dx` over `-1..1` without skipping `(0,0)`, so the cell
itself is included — with out-of-bounds positions counted as walls. -/
def caWallCount (g : Grid) (w h : Int) (x y : Int) : Nat :=
  ([-1, 0, 1] : List Int).foldl (fun acc dy =>
    ([-1, 0, 1] : List Int).foldl (fun acc2 dx =>
      let nx := x + dx
      let ny := y + dy
      if nx < 0 ∨ nx ≥ w ∨ ny < 0 ∨ ny ≥ h then acc2 + 1
      else if cellAt g nx ny = Tile.wall then acc2 + 1 else acc2) acc) 0

/-- One synchronous cellular-automata generation: a full next grid is built
before replacing the old one. -/
def applyCellularAutomataRules (g : Grid) (w h : Int) : Grid :=
  (intRange 0 h).map (fun y => (intRange 0 w).map (fun x =>
    if caWallCount g w h x y ≥ 5 then Tile.wall else Tile.floor))

/-- Random initial grid of the cellular-automata strategy: each cell is a
wall when `rng() < density`, drawn row by row. -/
def caInit (w h : Int) (density : ℚ) (s : Int) : Grid × Int :=
  (intRange 0 h).foldl (fun st _y =>
    let (rows, s0) := st
    let (row, s1) := (intRange 0 w).foldl (fun st2 _x =>
      let (cells, sc) := st2
      let (isWall, sc1) := drawLT sc density
      (cells ++ [if isWall then Tile.wall else Tile.floor], sc1)) ([], s0)
    (rows ++ [row], s1)) ([], s)

/-! ## Connectivity repair (floodFill, connectRegions, carveConnection,
ensureConnectivity) -/

/-- Iterative stack-based flood fill.  The JavaScript stack pops its last
element, so the list head is the stack top; for each visited cell the four
neighbours are pushed in order East, West, South, North, hence popped
North first.  Terminates because each iteration pops once and cells are
pushed only when first visited; the fuel bounds the modelled iterations. -/
def floodFillLoop (g : Grid) (w h : Int) :
    Nat → BoolGrid → List Vec → List Vec → Except JsError (BoolGrid × List Vec)
  | 0, _, _, _ => .error .fuelOut
  | _ + 1, visited, region, [] => .ok (visited, region.reverse)
  | fuel + 1, visited, region, (x, y) :: rest =>
    if x < 0 ∨ x ≥ w ∨ y < 0 ∨ y ≥ h ∨ boolGet visited x y ∨ cellAt g x y ≠ Tile.floor then
      floodFillLoop g w h fuel visited region rest
    else
      floodFillLoop g w h fuel (boolSet visited x y) ((x, y) :: region)
        ((x, y - 1) :: (x, y + 1) :: (x - 1, y) :: (x + 1, y) :: rest)

/-- Fuel sufficient for any flood fill: at most `4*w*h + 1` stack entries are
ever created. -/
def ffFuel (w h : Int) : Nat := 5 * (w.toNat * h.toNat) + 5

/-- Flood fill from a start cell (floodFill). -/
def floodFill (g : Grid) (w h : Int) (visited : BoolGrid) (startX startY : Int) :
    Except JsError (BoolGrid × List Vec) :=
  floodFillLoop g w h (ffFuel w h) visited [] [(startX, startY)]

/-- Closest pair of cells between two regions by Manhattan distance,
exhaustive scan with strict improvement, so the first minimising pair in
iteration order is kept (connectRegions before carving). -/
def closestPair (r1 r2 : List Vec) : Option (Vec × Vec) :=
  (r1.foldl (fun acc p1 => r2.foldl (fun acc2 p2 =>
    let d := (p1.1 - p2.1).natAbs + (p1.2 - p2.2).natAbs
    match acc2 with
    | none => some (p1, p2, d)
    | some (q1, q2, bd) => if d < bd then some (p1, p2, d) else some (q1, q2, bd))
    acc) none).map (fun t => (t.1, t.2.1))

/-- The horizontal-then-vertical cells traversed by carveConnection,
excluding none: the two while loops visit exactly these coordinates, and the
final cell is set once more at the end. -/
def carvePath (p q : Vec) : List Vec :=
  let dir1 : Int := if p.1 < q.1 then 1 else -1
  let dir2 : Int := if p.2 < q.2 then 1 else -1
  ((List.range (q.1 - p.1).natAbs).map (fun i => (p.1 + dir1 * Int.ofNat i, p.2))) ++
    ((List.range (q.2 - p.2).natAbs).map (fun j => (q.1, p.2 + dir2 * Int.ofNat j))) ++
    [(q.1, q.2)]

/-- Carve an L-shaped floor path between two points (carveConnection). -/
def carveConnection (g : Grid) (p q : Vec) : Except JsError Grid :=
  (carvePath p q).foldlM (fun gg c => writeCell gg c.1 c.2 Tile.floor) g

/-- Connect two regions by carving between their closest pair
(connectRegions). -/
def connectRegions (g : Grid) (r1 r2 : List Vec) : Except JsError Grid :=
  match closestPair r1 r2 with
  | none => .ok g
  | some (p, q) => carveConnection g p q

/-- Enumerate connected floor regions in scan order, keeping those with more
than 10 cells, then carve the later survivors to the first
(ensureConnectivity). -/
def ensureConnectivity (g : Grid) : Except JsError Grid := do
  match g with
  | [] => .error .typeError
  | r0 :: _ =>
    let hh : Int := g.length
    let ww : Int := r0.length
    let (_, regions) ← (intRange 0 hh).foldlM (fun st y =>
      (intRange 0 ww).foldlM (fun st2 x => do
        let (visited, regions) := st2
        if cellAt g x y = Tile.floor ∧ ¬ boolGet visited x y then
          let (v1, region) ← floodFill g ww hh visited x y
          pure (v1, if region.length > 10 then regions ++ [region] else regions)
        else pure (visited, regions)) st) (mkBoolGrid ww hh, ([] : List (List Vec)))
    match regions with
    | [] => .ok g
    | first :: others => others.foldlM (fun gg r => connectRegions gg first r) g

/-- The region scan of ensureConnectivity in isolation: the list of floor
regions of more than 10 cells found by the row-major flood-fill sweep. -/
def scanRegions (g : Grid) : Except JsError (List (List Vec)) := do
  match g with
  | [] => .error .typeError
  | r0 :: _ =>
    let hh : Int := g.length
    let ww : Int := r0.length
    let (_, regions) ← (intRange 0 hh).foldlM (fun st y =>
      (intRange 0 ww).foldlM (fun st2 x => do
        let (visited, regions) := st2
        if cellAt g x y = Tile.floor ∧ ¬ boolGet visited x y then
          let (v1, region) ← floodFill g ww hh visited x y
          pure (v1, if region.length > 10 then regions ++ [region] else regions)
        else pure (visited, regions)) st) (mkBoolGrid ww hh, ([] : List (List Vec)))
    pure regions

/-- The whole cellular-automata strategy: random fill, `iterations`
synchronous generations, then connectivity repair. -/
def generateCellularAutomata (opts : MazeGenerationOptions) (s : Int) :
    Except JsError (Grid × Int) := do
  let w := opts.width
  let h := opts.height
  let density := orUndef opts.density (mkRat 45 100)
  let iterations := orUndef opts.iterations 5
  let (g0, s1) := caInit w h density s
  let g1 := (List.range iterations.toNat).foldl (fun gg _ =>
    applyCellularAutomataRules gg w h) g0
  let g2 ← ensureConnectivity g1
  pure (g2, s1)

/-! ## Binary tree (generateBinaryTree) -/

/-- The binary-tree strategy: carve every odd-lattice cell and one of its
north or west walls when legal. -/
def generateBinaryTree (opts : MazeGenerationOptions) (s : Int) :
    Except JsError (Grid × Int) := do
  let w := opts.width
  let h := opts.height
  let g0 := initGrid w h Tile.wall
  (stepRange 1 (h - 1) 2).foldlM (fun st y =>
    (stepRange 1 (w - 1) 2).foldlM (fun st2 x => do
      let (g, s0) := st2
      let g1 ← writeCell g x y Tile.floor
      let dirs : List Vec := (if y > 1 then [((0 : Int), (-1 : Int))] else []) ++
        (if x > 1 then [((-1 : Int), (0 : Int))] else [])
      if dirs.length > 0 then do
        let (i, s1) := drawIdx s0 dirs.length
        let d ← indexList dirs i
        let g2 ← writeCell g1 (x + d.1) (y + d.2) Tile.floor
        pure (g2, s1)
      else pure (g1, s0)) st) (g0, s)

/-! ## Perlin-like caves (generatePerlinCaves, smoothCaves) -/

/-- Count of wall cells in the 3 x 3 block centred at `(x, y)` as
smoothCaves counts them: the cell itself is included and all nine reads are
in range at every call site. -/
def smoothWallCount (g : Grid) (x y : Int) : Nat :=
  ([-1, 0, 1] : List Int).foldl (fun acc dy =>
    ([-1, 0, 1] : List Int).foldl (fun acc2 dx =>
      if cellAt g (x + dx) (y + dy) = Tile.wall then acc2 + 1 else acc2) acc) 0

/-- One smoothing round (smoothCaves): interior cells follow the 3 x 3
majority rule computed on a copy of the grid, border cells are left
unchanged. -/
def smoothCaves (g : Grid) : Except JsError Grid :=
  match g with
  | [] => .error .typeError
  | r0 :: _ =>
    let hh : Int := g.length
    let ww : Int := r0.length
    .ok ((intRange 0 hh).map (fun y =>
      (intRange 0 ww).map (fun x =>
        if 1 ≤ y ∧ y ≤ hh - 2 ∧ 1 ≤ x ∧ x ≤ ww - 2 then
          (if smoothWallCount g x y ≥ 5 then Tile.wall else Tile.floor)
        else cellAt g x y)))

/-- The Perlin-like cave strategy.  The combined three-octave trigonometric
noise value at each cell is supplied by `noiseC`; cells above the density
threshold become walls, then three smoothing rounds run. -/
def generatePerlinCaves (noiseC : Int → Int → ℚ) (opts : MazeGenerationOptions)
    (s : Int) : Except JsError (Grid × Int) := do
  let w := opts.width
  let h := opts.height
  let density := orUndef opts.density (mkRat 2 5)
  let g0 : Grid := (intRange 0 h).map (fun y => (intRange 0 w).map (fun x =>
    if noiseC x y > density then Tile.wall else Tile.floor))
  let g1 ← smoothCaves g0
  let g2 ← smoothCaves g1
  let g3 ← smoothCaves g2
  pure (g3, s)

/-! ## Boundary enforcement (ensureBoundaryWalls) -/

/-- Overwrite the outer ring with walls.  The row count and the width are
read from the grid itself (the width from row 0). -/
def ensureBoundaryWalls (g : Grid) : Except JsError Grid :=
  match g with
  | [] => .error .typeError
  | r0 :: _ =>
    let hh : Int := g.length
    let ww : Int := r0.length
    let g1 := (intRange 0 ww).foldl (fun gg x =>
      setCellQ (setCellQ gg x 0 Tile.wall) x (hh - 1) Tile.wall) g
    .ok ((intRange 0 hh).foldl (fun gg y =>
      setCellQ (setCellQ gg 0 y Tile.wall) (ww - 1) y Tile.wall) g1)

/-! ## Result object (MazeData) -/

/-- Result of one generation call.  The source builds the string id
`maze_<seed>_<Date.now()>`; its two numeric components are kept as
`idSeed` and `idNow`. -/
structure MazeData where
  idSeed : Int
  idNow : Int
  width : Int
  height : Int
  layout : Grid
  spawnPoints : List Vec
  keySpawns : List Vec
  doorPositions : List Vec
  exitPosition : Vec
  theme : String
deriving DecidableEq, Repr

/-! ## Floor enumeration (findFloorTiles) -/

/-- All floor coordinates in row-major scan order; each row is scanned up to
its own length. -/
def findFloorTiles (g : Grid) : List Vec :=
  g.enum.foldl (fun acc yr =>
    acc ++ (yr.2.enum.filterMap (fun xt =>
      if xt.2 = Tile.floor then some ((xt.1 : Int), (yr.1 : Int)) else none))) []

/-- Manhattan distance between two tile coordinates. -/
def manhattan (p q : Vec) : Nat := (p.1 - q.1).natAbs + (p.2 - q.2).natAbs

/-! ## Spawn points (generateSpawnPoints) -/

/-- The inner `while (attempts < maxAttempts)` loop of one spawn slot: draw
a random floor tile, reject it when already used or within Manhattan
distance 5 of an accepted spawn, stop at the first success.  Reading a tile
from an empty floor list throws (the JavaScript code reads `.x` of
`undefined` to build the key string). -/
def spawnAttempt (floors : List Vec) (spawns used : List Vec) :
    Nat → Int → Except JsError (List Vec × List Vec × Int)
  | 0, s => .ok (spawns, used, s)
  | a + 1, s => do
    let (i, s1) := drawIdx s floors.length
    let tile ← indexList floors i
    if tile ∈ used then spawnAttempt floors spawns used a s1
    else if spawns.any (fun sp => manhattan sp tile < 5) then
      spawnAttempt floors spawns used a s1
    else .ok (spawns ++ [tile], used ++ [tile], s1)

/-- The relaxed placement loop that runs when the distance-constrained pass
fell short: keep sampling until enough distinct floor tiles are accepted.
This loop has no attempt cap in the source, so it gets explicit fuel. -/
def spawnRelax (floors : List Vec) (count : Nat) :
    Nat → List Vec → List Vec → Int → Except JsError (List Vec × List Vec × Int)
  | 0, _, _, _ => .error .fuelOut
  | f + 1, spawns, used, s =>
    if spawns.length < count ∧ spawns.length < floors.length then do
      let (i, s1) := drawIdx s floors.length
      let tile ← indexList floors i
      if tile ∈ used then spawnRelax floors count f spawns used s1
      else spawnRelax floors count f (spawns ++ [tile]) (used ++ [tile]) s1
    else .ok (spawns, used, s)

/-- Fuel for the relaxed loop; far beyond any terminating trace considered
here. -/
def relaxFuel : Nat := 500000

/-- Spawn placement (generateSpawnPoints): up to `count` slots with the
separation constraint, then the relaxed fallback. -/
def generateSpawnPoints (floors : List Vec) (count : Nat) (s : Int) :
    Except JsError (List Vec × Int) := do
  let (spawns, used, s1) ← (List.range count).foldlM (fun st _ => do
    let (spawns, used, s0) := st
    if spawns.length < count then spawnAttempt floors spawns used 100 s0
    else pure st) (([] : List Vec), ([] : List Vec), s)
  let (spawns2, _, s2) ← spawnRelax floors count relaxFuel spawns used s1
  pure (spawns2, s2)

/-! ## Key spawns (generateKeySpawns) -/

/-- The inner attempts loop of one key slot: accept the first sampled floor
tile not already used. -/
def keyAttempt (floors : List Vec) (keys used : List Vec) :
    Nat → Int → Except JsError (List Vec × List Vec × Int)
  | 0, s => .ok (keys, used, s)
  | a + 1, s => do
    let (i, s1) := drawIdx s floors.length
    let tile ← indexList floors i
    if tile ∈ used then keyAttempt floors keys used a s1
    else .ok (keys ++ [tile], used ++ [tile], s1)

/-- Key placement (generateKeySpawns): spawn positions are pre-inserted in
the used set; uniqueness is the only constraint. -/
def generateKeySpawns (floors spawns : List Vec) (count : Nat) (s : Int) :
    Except JsError (List Vec × Int) := do
  let (keys, _, s1) ← (List.range count).foldlM (fun st _ => do
    let (keys, used, s0) := st
    if keys.length < count then keyAttempt floors keys used 100 s0
    else pure st) (([] : List Vec), spawns, s)
  pure (keys, s1)

/-! ## Door positions (generateDoorPositions) -/

/-- Length of row `y`, 0 when the row does not exist (only used at sites
where the row exists). -/
def rowLen (g : Grid) (y : Int) : Int := ((gridRow g y).getD []).length

/-- Primary door-candidate scan: interior wall cells (per-row interior, the
x bound taken from the own row length, the adjacency bound from row 0) with
at least one 4-neighbour floor cell. -/
def doorScan (g : Grid) : List Vec :=
  let hh : Int := g.length
  let w0 : Int := (g.headD []).length
  (intRange 1 (hh - 1)).foldl (fun acc y =>
    (intRange 1 (rowLen g y - 1)).foldl (fun acc2 x =>
      if cellAt g x y = Tile.wall then
        let adj := ([(x - 1, y), (x + 1, y), (x, y - 1), (x, y + 1)] : List Vec).filter
          (fun p => 0 ≤ p.1 ∧ p.1 < w0 ∧ 0 ≤ p.2 ∧ p.2 < hh ∧ cellAt g p.1 p.2 = Tile.floor)
        if adj.length ≥ 1 then acc2 ++ [(x, y)] else acc2
      else acc2) acc) []

/-- Relaxed fallback scan: any wall cell two cells away from the edge, with
an internal used set that only guards against duplicates among the cells the
fallback itself adds. -/
def doorFallback (g : Grid) (pool : List Vec) : List Vec :=
  let hh : Int := g.length
  ((intRange 2 (hh - 2)).foldl (fun st y =>
    (intRange 2 (rowLen g y - 2)).foldl (fun st2 x =>
      let (p, used) := st2
      if cellAt g x y = Tile.wall ∧ (x, y) ∉ used then
        (p ++ [((x : Int), (y : Int))], used ++ [((x : Int), (y : Int))])
      else st2) st) (pool, ([] : List Vec))).1

/-- Random selection without replacement from the candidate pool
(`splice`). -/
def doorSelect (count : Nat) (pool : List Vec) (s : Int) :
    Except JsError (List Vec × Int) := do
  let (doors, _, s1) ← (List.range count).foldlM (fun st _ => do
    let (doors, pool, s0) := st
    if doors.length < count ∧ pool.length > 0 then do
      let (i, s1) := drawIdx s0 pool.length
      let door ← indexList pool i
      pure (doors ++ [door], pool.eraseIdx i.toNat, s1)
    else pure st) (([] : List Vec), pool, s)
  pure (doors, s1)

/-- Door placement (generateDoorPositions).  The floor-tile argument of the
source is unused in its body and dropped here.  When the primary scan finds
fewer candidates than requested, the relaxed fallback widens the pool. -/
def generateDoorPositions (g : Grid) (count : Nat) (s : Int) :
    Except JsError (List Vec × Int) :=
  let pool := doorScan g
  let pool2 := if pool.length < count then doorFallback g pool else pool
  doorSelect count pool2 s

/-! ## Exit position (generateExitPosition) -/

/-- Exit selection: the floor tile maximising the minimum Manhattan distance
to the spawn points, with strict improvement starting from the first floor
tile and distance 0 (`Math.min()` of no spawns is Infinity, modelled by
`none`).  With no floor tiles the caller immediately reads `.x` of
`undefined`, which throws. -/
def generateExitPosition (floors spawns : List Vec) : Except JsError Vec :=
  match floors with
  | [] => .error .typeError
  | f0 :: _ =>
    .ok (floors.foldl (fun st tile =>
      let minD : Option Nat := spawns.foldl (fun m sp =>
        match m with
        | none => some (manhattan sp tile)
        | some md => some (min md (manhattan sp tile))) none
      match minD, st.2 with
      | none, none => st
      | none, some _ => (tile, none)
      | some _, none => st
      | some d, some md => if d > md then (tile, some d) else st)
      ((f0, some 0) : Vec × Option Nat)).1

/-! ## Grid bake (placeSpecialTiles) -/

/-- Bake the door tiles into the layout; spawn, key, and exit positions are
deliberately not baked. -/
def placeSpecialTiles (g : Grid) (_spawns _keys : List Vec) (doors : List Vec)
    (_exitP : Vec) : Except JsError Grid :=
  doors.foldlM (fun gg d => writeCell gg d.1 d.2 Tile.door) g

/-! ## Orchestration (generateMaze) -/

/-- Dispatch on the algorithm option.  The enumeration is closed, so the
default branch of the source switch is unreachable. -/
def carveStage (noiseC : Int → Int → ℚ) (opts : MazeGenerationOptions) (s : Int) :
    Except JsError (Grid × Int) :=
  match opts.algorithm with
  | .recursiveBacktracking => generateRecursiveBacktracking opts s
  | .cellularAutomata => generateCellularAutomata opts s
  | .binaryTree => generateBinaryTree opts s
  | .perlinCaves => generatePerlinCaves noiseC opts s

/-- Carving followed by boundary enforcement: the layout on which all
placement runs. -/
def layoutStage (noiseC : Int → Int → ℚ) (opts : MazeGenerationOptions) (s : Int) :
    Except JsError (Grid × Int) := do
  let (g, s1) ← carveStage noiseC opts s
  let g2 ← ensureBoundaryWalls g
  pure (g2, s1)

/-- One full generation call on a generator whose stored seed is `genSeed`
and whose rng is freshly seeded with it.  The `Date.now()` component of the
result id is filled in by `generateMaze` below; nothing else in the pipeline
reads the clock. -/
def generateMazeCore (noiseC : Int → Int → ℚ) (genSeed : Int)
    (opts : MazeGenerationOptions) : Except JsError MazeData := do
  let (l2, s1) ← layoutStage noiseC opts genSeed
  let floors := findFloorTiles l2
  let (spawns, s2) ← generateSpawnPoints floors 4 s1
  let (keys, s3) ← generateKeySpawns floors spawns 6 s2
  let (doors, _s4) ← generateDoorPositions l2 3 s3
  let exitP ← generateExitPosition floors spawns
  let l3 ← placeSpecialTiles l2 spawns keys doors exitP
  pure { idSeed := genSeed, idNow := 0, width := opts.width,
         height := opts.height, layout := l3, spawnPoints := spawns,
         keySpawns := keys, doorPositions := doors, exitPosition := exitP,
         theme := "default" }

/-- generateMaze: the pipeline plus the `Date.now()` read (`now2`) stored in
the result id. -/
def generateMaze (noiseC : Int → Int → ℚ) (genSeed now2 : Int)
    (opts : MazeGenerationOptions) : Except JsError MazeData :=
  (generateMazeCore noiseC genSeed opts).map (fun m => { m with idNow := now2 })

/-- Construction plus one generation call: `new MazeGenerator(seed)` derives
the stored seed from the optional argument and `Date.now()` (`now`), then
`generateMaze(options)` runs on the freshly seeded rng. -/
def mazeGeneratorGenerate (noiseC : Int → Int → ℚ) (seed : Option Int)
    (now now2 : Int) (opts : MazeGenerationOptions) : Except JsError MazeData :=
  generateMaze noiseC (effectiveSeed seed now) now2 opts

/-! ## Claim-level vocabulary -/

/-- The noise parameter used for all concrete runs in the claims; none of
them uses the Perlin strategy, so its value is irrelevant there. -/
def zeroNoise : Int → Int → ℚ := fun _ _ => 0

/-- The output components the determinism claim compares: the result with
the two id components (which embed a timestamp by design) cleared, so that
equality says exactly that layout, spawnPoints, keySpawns, doorPositions,
exitPosition (and the trivially equal width, height, theme) agree. -/
def mazeFields (m : MazeData) : MazeData := { m with idSeed := 0, idNow := 0 }

/-- The four axis neighbours of a cell, the adjacency of the flood fill. -/
def neighborList (p : Vec) : List Vec :=
  [(p.1 + 1, p.2), (p.1 - 1, p.2), (p.1, p.2 + 1), (p.1, p.2 - 1)]

/-- One step of 4-directional floor adjacency: both cells are floor and the
second is an axis neighbour of the first. -/
def floorAdj (g : Grid) (p q : Vec) : Prop :=
  cellAt g p.1 p.2 = Tile.floor ∧ cellAt g q.1 q.2 = Tile.floor ∧ q ∈ neighborList p

/-- A 4-directional flood fill started at `p` visits `q`: reflexive
transitive closure of floor adjacency. -/
def floorReach (g : Grid) : Vec → Vec → Prop :=
  Relation.ReflTransGen (floorAdj g)

/-- The coordinate `p` addresses an existing cell of the (possibly ragged)
layout. -/
def inLayout (g : Grid) (p : Vec) : Prop :=
  0 ≤ p.2 ∧ p.2 < g.length ∧ 0 ≤ p.1 ∧ p.1 < rowLen g p.2

instance (g : Grid) (p : Vec) : Decidable (inLayout g p) := by
  unfold inLayout
  infer_instance

/-- The 3 x 3 neighbourhood of a cell, the cell itself included, in the scan
order of the source loops. -/
def neighborhood9 (x y : Int) : List Vec :=
  [(x - 1, y - 1), (x, y - 1), (x + 1, y - 1),
   (x - 1, y), (x, y), (x + 1, y),
   (x - 1, y + 1), (x, y + 1), (x + 1, y + 1)]

/-- Wall count of the cellular-automata rule phrased independently of the
source loops: walls (or out-of-grid positions) among the nine cells of the
3 x 3 block. -/
def blockWallCount (g : Grid) (w h : Int) (x y : Int) : Nat :=
  (neighborhood9 x y).countP (fun p =>
    decide (p.1 < 0 ∨ w ≤ p.1 ∨ p.2 < 0 ∨ h ≤ p.2) ||
      decide (cellAt g p.1 p.2 = Tile.wall))

/-- The smoothing rule exactly as the specification words it, for comparison
with the source: count `Wall` among the 8 neighbours of the cell (the cell
itself excluded, out-of-grid neighbours counted as `Wall`); a count of at
least 5 gives `Wall`, else `Floor`, at every cell, synchronously. -/
def specCellularStep (g : Grid) (w h : Int) : Grid :=
  (intRange 0 h).map (fun y => (intRange 0 w).map (fun x =>
    if 5 ≤ ((neighborhood9 x y).countP (fun p =>
        (decide (¬ (p.1 = x ∧ p.2 = y))) &&
          (decide (p.1 < 0 ∨ w ≤ p.1 ∨ p.2 < 0 ∨ h ≤ p.2) ||
            decide (cellAt g p.1 p.2 = Tile.wall)))) then
      Tile.wall else Tile.floor))

/-- The grid is a rectangular `h` by `w` matrix of tiles. -/
def gridShaped (g : Grid) (w h : Int) : Prop :=
  (g.length : Int) = h ∧ ∀ r ∈ g, (r.length : Int) = w


/-- Every cell of the outer ring of the `w` by `h` rectangle is a wall. -/
def borderWalls (g : Grid) (w h : Int) : Prop :=
  ∀ x y : Int, 0 ≤ x → x < w → 0 ≤ y → y < h →
    (x = 0 ∨ x = w - 1 ∨ y = 0 ∨ y = h - 1) → cellAt g x y = Tile.wall

/-- A coordinate inside the `w` by `h` rectangle. -/
def inBounds (w h : Int) (p : Vec) : Prop :=
  0 ≤ p.1 ∧ p.1 < w ∧ 0 ≤ p.2 ∧ p.2 < h

instance (w h : Int) (p : Vec) : Decidable (inBounds w h p) := by
  unfold inBounds
  infer_instance

instance (g : Grid) (w h : Int) : Decidable (gridShaped g w h) := by
  unfold gridShaped
  infer_instance

/-! ## Concrete inputs and outputs used by the claims -/

/-- Cellular automata, 5 x 5, density 0.8, no smoothing iterations, seed 3:
a run whose result has disconnected floor cells. -/
def c1opts : MazeGenerationOptions :=
  { width := 5, height := 5, algorithm := .cellularAutomata, seed := some 3,
    density := some (mkRat 8 10), iterations := some 0 }


/-- Fallback record used to express closed statements about a successful run
without naming its full result. -/
def c4wDefault : MazeData :=
  { idSeed := 0, idNow := 0, width := 0, height := 0, layout := [],
    spawnPoints := [], keySpawns := [], doorPositions := [],
    exitPosition := (0, 0), theme := "" }

/-- Extract the result of a successful run, with a fallback for failures. -/
def exResult (r : Except JsError MazeData) (d : MazeData) : MazeData :=
  match r with
  | .ok m => m
  | .error _ => d

/-- Extract a successful grid result, with a fallback for failures. -/
def exGrid (r : Except JsError Grid) (d : Grid) : Grid :=
  match r with
  | .ok g => g
  | .error _ => d

/-- Extract a successful region-scan result, with a fallback for failures. -/
def exRegions (r : Except JsError (List (List Vec))) : List (List Vec) :=
  match r with
  | .ok rs => rs
  | .error _ => []

/-- A 5 by 13 grid with two separated 11-cell floor columns: two surviving
regions for the connectivity repairer to join. -/
def c1wGrid : Grid :=
  [List.replicate 5 Tile.wall] ++
    (List.replicate 11 [Tile.wall, Tile.floor, Tile.wall, Tile.floor, Tile.wall]) ++
    [List.replicate 5 Tile.wall]

/-- Cellular automata, 5 x 5, seed 3, density 0.8, no smoothing: a concrete
run whose returned layout has a fully walled outer ring. -/
def c4wopts : MazeGenerationOptions :=
  { width := 5, height := 5, algorithm := .cellularAutomata, seed := some 3,
    density := some (mkRat 8 10), iterations := some 0 }

/-- The layout returned by the run on `c1opts`. -/
def c1layout : Grid :=
  [[.wall, .wall, .wall, .wall, .wall],
   [.wall, .floor, .wall, .wall, .wall],
   [.wall, .door, .wall, .door, .wall],
   [.wall, .floor, .door, .floor, .wall],
   [.wall, .wall, .wall, .wall, .wall]]

/-- Binary tree, 5 x 5, seed value 0 (falsy, so the time-derived default is
used instead). -/
def seedZeroOpts : MazeGenerationOptions :=
  { width := 5, height := 5, algorithm := .binaryTree, seed := some 0 }

/-- Width and height 4 (below the documented minimum), room sizes that fit:
generation completes normally instead of failing fast. -/
def c3opts : MazeGenerationOptions :=
  { width := 4, height := 4, algorithm := .recursiveBacktracking, seed := some 1,
    minRoomSize := some 3, maxRoomSize := some 3 }

/-- The layout returned by the run on `c3opts`: carving plainly happened. -/
def c3layout : Grid :=
  [[.wall, .wall, .wall, .wall],
   [.wall, .floor, .floor, .wall],
   [.wall, .floor, .floor, .wall],
   [.wall, .wall, .wall, .wall]]

/-- Recursive backtracking on 5 x 5 with a room size range reaching 6: a
room carve extends the rows past the nominal width, leaving floor on column
`width - 1`. -/
def c4opts : MazeGenerationOptions :=
  { width := 5, height := 5, algorithm := .recursiveBacktracking, seed := some 15,
    minRoomSize := some 5, maxRoomSize := some 6, roomCount := some 1 }

/-- The layout returned by the run on `c4opts`: 5 rows of length 6, with
floor throughout columns 1..4 of the interior rows. -/
def c4layout : Grid :=
  [[.wall, .wall, .wall, .wall, .wall, .wall],
   [.wall, .floor, .floor, .floor, .floor, .wall],
   [.wall, .floor, .floor, .floor, .floor, .wall],
   [.wall, .floor, .floor, .floor, .floor, .wall],
   [.wall, .wall, .wall, .wall, .wall, .wall]]

/-- Recursive backtracking, 5 x 5, with the documented-valid parameters
minRoomSize 3 ≤ maxRoomSize 7, roomCount 3: the room carve indexes a row
that does not exist. -/
def c5opts : MazeGenerationOptions :=
  { width := 5, height := 5, algorithm := .recursiveBacktracking, seed := some 1,
    minRoomSize := some 3, maxRoomSize := some 7, roomCount := some 3 }

/-- A 3 x 3 grid whose centre cell is a wall with exactly 4 wall neighbours:
the source rule (which counts the cell itself) and the specification rule
(which excludes it) disagree there. -/
def c6grid : Grid :=
  [[.wall, .wall, .floor],
   [.wall, .wall, .floor],
   [.floor, .floor, .wall]]

/-- Cellular automata, 5 x 5, density 0.95, no iterations, seed 3: only one
floor cell survives, so the door fallback selects walls with no floor
neighbour. -/
def c7opts : MazeGenerationOptions :=
  { width := 5, height := 5, algorithm := .cellularAutomata, seed := some 3,
    density := some (mkRat 95 100), iterations := some 0 }

/-- The layout of the run on `c7opts` after boundary enforcement and before
door baking: floor only at (1,1). -/
def c7stage : Grid :=
  [[.wall, .wall, .wall, .wall, .wall],
   [.wall, .floor, .wall, .wall, .wall],
   [.wall, .wall, .wall, .wall, .wall],
   [.wall, .wall, .wall, .wall, .wall],
   [.wall, .wall, .wall, .wall, .wall]]

/-- Cellular automata with density 1 and no iterations: every cell starts as
wall and stays wall, so the grid has zero floor cells. -/
def c8opts : MazeGenerationOptions :=
  { width := 5, height := 5, algorithm := .cellularAutomata, seed := some 9,
    density := some (mkRat 1 1), iterations := some 0 }

/-! # Theorems

First the supporting lemmas, then one theorem (with witness or
counterexample where required) per specification claim. -/

/-- The integer comparison inside `drawLT` is exactly `rng() < d`. -/
theorem drawLT_spec (s : Int) (d : ℚ) :
    (drawLT s d).1 = decide (lcgVal (lcgNext s) < d) := by
  have hden : (0 : ℚ) < ((d.den : Int) : ℚ) := by exact_mod_cast d.pos
  have h2 : (0 : ℚ) < (233280 : ℚ) := by norm_num
  have hnum : d * (((d.den : Int)) : ℚ) = (d.num : ℚ) := by
    exact_mod_cast Rat.mul_den_eq_num d
  have hiff : lcgVal (lcgNext s) < d ↔
      (lcgNext s) * (d.den : Int) < d.num * 233280 := by
    rw [lcgVal, div_lt_iff h2,
      show ((lcgNext s : ℚ)) < d * 233280 ↔
        ((lcgNext s : ℚ)) * (((d.den : Int)) : ℚ) < d * 233280 * (((d.den : Int)) : ℚ) from
        (mul_lt_mul_right hden).symm,
      mul_right_comm, hnum]
    exact_mod_cast Iff.rfl
  have hd2 : decide ((lcgNext s) * (d.den : Int) < d.num * 233280)
      = decide (lcgVal (lcgNext s) < d) := decide_eq_decide.mpr hiff.symm
  rw [drawLT]
  exact hd2

/-- Bind on a successful Except computes the continuation. -/
theorem exBind_ok {α β : Type} (a : α) (f : α → Except JsError β) :
    (Except.ok a >>= f) = f a := rfl

/-- Bind on a failed Except propagates the error. -/
theorem exBind_err {α β : Type} (e : JsError) (f : α → Except JsError β) :
    ((Except.error e : Except JsError α) >>= f) = .error e := rfl

/-- A set of cells closed under floor adjacency separates its members from
the cells outside it: no flood fill can cross out of it. -/
theorem not_floorReach_of_closed {g : Grid} {S : List Vec}
    (hcl : ∀ a ∈ S, ∀ b ∈ neighborList a, cellAt g b.1 b.2 = Tile.floor → b ∈ S)
    {p q : Vec} (hp : p ∈ S) (hq : q ∉ S) : ¬ floorReach g p q := by
  intro h
  refine hq ?_
  clear hq
  induction h with
  | refl => exact hp
  | tail h1 h2 ih => exact hcl _ ih _ h2.2.2 h2.2.1

/-- One LCG step keeps the state in `[0, 233280)` whenever it starts
nonnegative. -/
theorem lcgNext_bounds (s : Int) (hs : 0 ≤ s) :
    0 ≤ lcgNext s ∧ lcgNext s < 233280 := by
  unfold lcgNext
  have h1 : (0 : Int) ≤ s * 9301 + 49297 := by
    have := mul_nonneg hs (by norm_num : (0 : Int) ≤ 9301)
    omega
  exact ⟨Int.tmod_nonneg _ h1, Int.tmod_lt_of_pos _ (by norm_num)⟩

/-- Iterating the LCG from a nonnegative seed keeps the state
nonnegative. -/
theorem lcgIter_nonneg (s : Int) (hs : 0 ≤ s) (n : Nat) : 0 ≤ lcgIter s n := by
  induction n with
  | zero => exact hs
  | succ k ih => exact (lcgNext_bounds _ ih).1

/-- C9 (corrected).  For every nonnegative integer seed the random source is
total and every value it returns lies in `[0, 1)`; the sequence is a pure
function of the seed by construction.  (For seeds at or below -6 the claim
fails, see the counterexample.) -/
theorem C9_range (s : Int) (hs : 0 ≤ s) (n : Nat) :
    0 ≤ lcgVal (lcgIter s (n + 1)) ∧ lcgVal (lcgIter s (n + 1)) < 1 := by
  have hb := lcgNext_bounds (lcgIter s n) (lcgIter_nonneg s hs n)
  rw [show lcgIter s (n + 1) = lcgNext (lcgIter s n) from rfl]
  unfold lcgVal
  constructor
  · apply div_nonneg _ (by norm_num)
    exact_mod_cast hb.1
  · rw [div_lt_one (by norm_num)]
    exact_mod_cast hb.2

/-- Witness for C9_range at seed 42, first call. -/
theorem C9_range_witness :
    (0 : Int) ≤ 42 ∧ (0 ≤ lcgVal (lcgIter 42 1) ∧ lcgVal (lcgIter 42 1) < 1) :=
  ⟨by norm_num, C9_range 42 (by norm_num) 0⟩

/-- C9 counterexample.  With seed -6, the very first call of `next()`
returns a negative value: the JavaScript remainder keeps the sign of the
dividend, so the claim fails for negative integer seeds. -/
theorem C9_counterexample : lcgVal (lcgIter (-6) 1) < 0 := by
  rw [show lcgIter (-6) 1 = -6509 from by decide]
  rw [lcgVal]
  norm_num

/-- C10 (confirmed).  Passing seed 0 to the constructor behaves exactly as
passing no seed at all (`seed || Date.now()` treats 0 as falsy), and two
seed-0 runs at different construction times can return different layouts. -/
theorem C10_seed_zero :
    (∀ (noiseC : Int → Int → ℚ) (t now2 : Int) (opts : MazeGenerationOptions),
        mazeGeneratorGenerate noiseC (some 0) t now2 opts =
          mazeGeneratorGenerate noiseC none t now2 opts) ∧
      (mazeGeneratorGenerate zeroNoise (some 0) 7 0 seedZeroOpts).map (fun m => m.layout) ≠
        (mazeGeneratorGenerate zeroNoise (some 0) 8 0 seedZeroOpts).map (fun m => m.layout) := by
  constructor
  · intro noiseC t now2 opts
    rfl
  · decide

/-- C3 counterexample.  With width 4 and height 4 (below the documented
minimum) and room sizes that fit, generation does not raise anything — it
runs to completion and returns a result, so no ConfigurationError exists,
let alone one raised before carving. -/
theorem C3_counterexample :
    (mazeGeneratorGenerate zeroNoise (some 1) 0 0 c3opts).isOk = true := by decide

/-- C3 (corrected).  generateMaze performs no dimension validation at all:
the 4 x 4 run carves the grid (the interior floor cells below) and returns a
normal MazeResult. -/
theorem C3_no_validation :
    (mazeGeneratorGenerate zeroNoise (some 1) 0 0 c3opts).map (fun m => m.layout) =
      .ok c3layout := by decide

/-- C5 counterexample.  The options satisfy every documented input
constraint (width, height ≥ 5; 1 ≤ minRoomSize 3 ≤ maxRoomSize 7;
roomCount 3 ≥ 0), yet the room carve writes through a row that does not
exist and the run aborts with a TypeError. -/
theorem C5_counterexample :
    mazeGeneratorGenerate zeroNoise (some 1) 0 0 c5opts = .error .typeError := by
  decide

/-- C8 counterexample.  On a grid with zero floor cells the run does abort
synchronously, but with the generic TypeError thrown by the spawn sampler
reading a tile from the empty floor list — not with a distinct
InfeasibleLevelError (no such error exists in the code). -/
theorem C8_counterexample :
    (layoutStage zeroNoise c8opts 9).map (fun p => findFloorTiles p.1) = .ok [] ∧
      mazeGeneratorGenerate zeroNoise (some 9) 0 0 c8opts = .error .typeError ∧
      JsError.typeError ≠ JsError.infeasibleLevel :=
  ⟨by decide, by decide, by decide⟩

/-- C2 counterexample.  Seed 0 is treated as absent, so two calls with these
options on generators constructed at different times disagree on the
layout. -/
theorem C2_counterexample :
    (mazeGeneratorGenerate zeroNoise (some 0) 1 0 seedZeroOpts).map mazeFields ≠
      (mazeGeneratorGenerate zeroNoise (some 0) 8 0 seedZeroOpts).map mazeFields := by
  decide

/-- C4 counterexample.  The run returns normally with width 5, but the room
carve extended the rows to length 6; the boundary enforcer then walled
column 5 instead of column 4, leaving floor tiles on column `width - 1` of
the returned layout. -/
theorem C4_counterexample :
    (mazeGeneratorGenerate zeroNoise (some 15) 0 0 c4opts).map
        (fun m => (m.width, m.height, m.layout)) = .ok (5, 5, c4layout) ∧
      inLayout c4layout (4, 2) ∧ cellAt c4layout 4 2 = Tile.floor :=
  ⟨by decide, by decide, by decide⟩

/-- C6 counterexample.  At the centre of `c6grid` (a wall with exactly 4
wall neighbours) the source rule, which counts the cell itself, yields Wall
while the specification rule (8 neighbours, cell excluded) yields Floor;
and a smoothing round leaves the border cell (2,0) untouched where the
specification rule would make it Wall. -/
theorem C6_counterexample :
    cellAt (applyCellularAutomataRules c6grid 3 3) 1 1 = Tile.wall ∧
      cellAt (specCellularStep c6grid 3 3) 1 1 = Tile.floor ∧
      (smoothCaves c6grid).map (fun g2 => cellAt g2 2 0) = .ok Tile.floor ∧
      cellAt (specCellularStep c6grid 3 3) 2 0 = Tile.wall :=
  ⟨by decide, by decide, by decide, by decide⟩

/-- C7 counterexample.  In the run on `c7opts` only (1,1) is floor, the
primary scan finds just two candidates, and the relaxed fallback adds the
wall (2,2), which is then selected although none of its four neighbours is a
floor cell. -/
theorem C7_counterexample :
    (layoutStage zeroNoise c7opts 3).map (fun p => p.1) = .ok c7stage ∧
      (mazeGeneratorGenerate zeroNoise (some 3) 0 0 c7opts).map
        (fun m => m.doorPositions) = .ok [(2, 1), (2, 2), (1, 2)] ∧
      cellAt c7stage 2 2 = Tile.wall ∧
      (∀ b ∈ neighborList (2, 2), cellAt c7stage b.1 b.2 ≠ Tile.floor) :=
  ⟨by decide, by decide, by decide, by decide⟩

/-- C1 counterexample.  The returned layout of the run on `c1opts` has floor
cells at (1,1) and (1,3), but no flood fill connects them: the singleton
{(1,1)} is closed under floor adjacency. -/
theorem C1_counterexample :
    (mazeGeneratorGenerate zeroNoise (some 3) 0 0 c1opts).map (fun m => m.layout) =
        .ok c1layout ∧
      cellAt c1layout 1 1 = Tile.floor ∧ cellAt c1layout 1 3 = Tile.floor ∧
      ¬ floorReach c1layout (1, 1) (1, 3) :=
  ⟨by decide, by decide, by decide,
    not_floorReach_of_closed (S := [(1, 1)]) (by decide) (by decide) (by decide)⟩

/-- The timestamp read for the result id does not influence any compared
field of the result. -/
theorem generateMaze_now2 (noiseC : Int → Int → ℚ) (gs n1 n2 : Int)
    (opts : MazeGenerationOptions) :
    (generateMaze noiseC gs n1 opts).map mazeFields =
      (generateMaze noiseC gs n2 opts).map mazeFields := by
  unfold generateMaze
  cases generateMazeCore noiseC gs opts with
  | error e => rfl
  | ok m => rfl

/-- C2 (corrected).  For every options and every fixed nonzero seed, two
calls — each on a generator freshly constructed from that seed, at arbitrary
construction times and id timestamps — agree on layout, spawnPoints,
keySpawns, doorPositions and exitPosition (and on success versus failure).
No state carries over: each run is a pure function of seed and options. -/
theorem C2_determinism (noiseC : Int → Int → ℚ) (sd : Int) (hsd : sd ≠ 0)
    (t1 t2 n1 n2 : Int) (opts : MazeGenerationOptions) :
    (mazeGeneratorGenerate noiseC (some sd) t1 n1 opts).map mazeFields =
      (mazeGeneratorGenerate noiseC (some sd) t2 n2 opts).map mazeFields := by
  unfold mazeGeneratorGenerate effectiveSeed orFalsy
  simp only [hsd, if_false]
  exact generateMaze_now2 noiseC sd n1 n2 opts

/-- Witness for C2_determinism: seed 42, construction times 1 and 2. -/
theorem C2_determinism_witness :
    (42 : Int) ≠ 0 ∧
      (mazeGeneratorGenerate zeroNoise (some 42) 1 5 seedZeroOpts).map mazeFields =
        (mazeGeneratorGenerate zeroNoise (some 42) 2 9 seedZeroOpts).map mazeFields :=
  ⟨by decide, C2_determinism zeroNoise 42 (by decide) 1 2 5 9 seedZeroOpts⟩

/-- Mapping a function over a failed Except keeps the error. -/
theorem exFMap_err {α β : Type} (f : α → β) (e : JsError) :
    (f <$> (Except.error e : Except JsError α) : Except JsError β) = .error e := rfl

/-- Mapping a function over a successful Except applies it. -/
theorem exFMap_ok {α β : Type} (f : α → β) (a : α) :
    (f <$> (Except.ok a : Except JsError α) : Except JsError β) = .ok (f a) := rfl

/-- Sampling a spawn tile from an empty floor list throws at once: the draw
index is 0 and reading element 0 of the empty array yields `undefined`,
whose use raises a TypeError. -/
theorem spawnAttempt_nil (spawns used : List Vec) (a : Nat) (s : Int) :
    spawnAttempt [] spawns used (a + 1) s = .error .typeError := by
  unfold spawnAttempt
  simp [drawIdx, indexList, mul_zero, Int.zero_fdiv, exBind_err]

/-- Spawn placement on an empty floor list fails in its first slot. -/
theorem generateSpawnPoints_nil (s : Int) :
    generateSpawnPoints [] 4 s = .error .typeError := by
  have h1 : spawnAttempt [] [] [] 100 s = .error .typeError := spawnAttempt_nil [] [] 99 s
  unfold generateSpawnPoints
  rw [show List.range 4 = [0, 1, 2, 3] from rfl]
  simp [List.foldlM, h1, exBind_err, exFMap_err]

/-- C8 (corrected).  Whenever the grid after carving and boundary
enforcement has zero floor cells, generateMaze aborts synchronously with the
generic TypeError raised by the spawn sampler — the code has no distinct
InfeasibleLevelError to signal. -/
theorem C8_zero_floor (noiseC : Int → Int → ℚ) (gs now2 : Int)
    (opts : MazeGenerationOptions) (l2 : Grid) (s1 : Int)
    (hstage : layoutStage noiseC opts gs = .ok (l2, s1))
    (hfloor : findFloorTiles l2 = []) :
    generateMaze noiseC gs now2 opts = .error .typeError := by
  unfold generateMaze generateMazeCore
  rw [hstage]
  simp only [exBind_ok, hfloor, generateSpawnPoints_nil, exBind_err, exFMap_err]
  rfl

/-- Witness for C8_zero_floor: the density-1 cellular-automata run. -/
theorem C8_zero_floor_witness :
    layoutStage zeroNoise c8opts 9 = .ok (initGrid 5 5 Tile.wall, 182134) ∧
      findFloorTiles (initGrid 5 5 Tile.wall) = [] ∧
      generateMaze zeroNoise 9 0 c8opts = .error .typeError :=
  ⟨by decide, by decide,
    C8_zero_floor zeroNoise 9 0 c8opts (initGrid 5 5 Tile.wall) 182134
      (by decide) (by decide)⟩


/-- A predicate preserved by every step of a fold holds of its result. -/
theorem foldl_preserve {α β : Type} (P : β → Prop) (f : β → α → β)
    (hf : ∀ acc x, P acc → P (f acc x)) :
    ∀ (l : List α) (acc : β), P acc → P (l.foldl f acc) := by
  intro l
  induction l with
  | nil => exact fun acc h => h
  | cons x xs ih => exact fun acc h => ih _ (hf acc x h)

/-- Inversion for a successful Except bind. -/
theorem exBind_ok_iff {α β : Type} {x : Except JsError α} {f : α → Except JsError β}
    {b : β} : (x >>= f) = .ok b ↔ ∃ a, x = .ok a ∧ f a = .ok b := by
  cases x with
  | error e =>
    rw [exBind_err]
    constructor
    · intro h; cases h
    · rintro ⟨a, ha, _⟩; cases ha
  | ok a =>
    rw [exBind_ok]
    constructor
    · intro h; exact ⟨a, rfl, h⟩
    · rintro ⟨a2, ha, h2⟩
      cases ha
      exact h2

/-- An invariant preserved by every successful step of a monadic fold holds
of a successful result. -/
theorem foldlM_invariant {α β : Type} (P : β → Prop) (f : β → α → Except JsError β) :
    ∀ (l : List α), (∀ acc x, x ∈ l → P acc → ∀ b2, f acc x = .ok b2 → P b2) →
    ∀ (init res : β), P init → l.foldlM f init = .ok res → P res := by
  intro l
  induction l with
  | nil =>
    intro _ init res hinit hres
    simp only [List.foldlM] at hres
    cases hres
    exact hinit
  | cons x xs ih =>
    intro hf init res hinit hres
    have hc : (x :: xs).foldlM f init = f init x >>= fun b => xs.foldlM f b := rfl
    rw [hc] at hres
    obtain ⟨b, hfx, hrest⟩ := exBind_ok_iff.mp hres
    exact ih (fun acc z hz => hf acc z (List.mem_cons_of_mem x hz)) b res
      (hf init x (List.mem_cons_self x xs) hinit b hfx) hrest

/-- A successful array read returns an element of the array. -/
theorem indexList_mem {α : Type} {l : List α} {i : Int} {a : α}
    (h : indexList l i = .ok a) : a ∈ l := by
  unfold indexList at h
  split at h
  · cases hg : l.get? i.toNat with
    | none => rw [hg] at h; cases h
    | some b =>
      rw [hg] at h
      cases h
      exact List.get?_mem hg
  · cases h

/-- Every candidate of the primary door scan is a wall cell. -/
theorem doorScan_wall (g : Grid) : ∀ p ∈ doorScan g, cellAt g p.1 p.2 = Tile.wall := by
  unfold doorScan
  dsimp only
  apply foldl_preserve (P := fun acc : List Vec => ∀ p ∈ acc, cellAt g p.1 p.2 = Tile.wall)
  · intro acc y hacc
    apply foldl_preserve
      (P := fun acc2 : List Vec => ∀ p ∈ acc2, cellAt g p.1 p.2 = Tile.wall)
    · intro acc2 x hacc2
      split
      · split
        · intro p hp
          rcases List.mem_append.mp hp with hp1 | hp2
          · exact hacc2 p hp1
          · rw [List.mem_singleton.mp hp2]
            assumption
        · exact hacc2
      · exact hacc2
    · exact hacc
  · intro p hp
    cases hp

/-- The relaxed fallback only adds wall cells to the pool. -/
theorem doorFallback_wall (g : Grid) (pool : List Vec)
    (hp : ∀ p ∈ pool, cellAt g p.1 p.2 = Tile.wall) :
    ∀ p ∈ doorFallback g pool, cellAt g p.1 p.2 = Tile.wall := by
  unfold doorFallback
  dsimp only
  apply foldl_preserve
    (P := fun st : List Vec × List Vec => ∀ p ∈ st.1, cellAt g p.1 p.2 = Tile.wall)
  · intro st y hst
    apply foldl_preserve
      (P := fun st2 : List Vec × List Vec => ∀ p ∈ st2.1, cellAt g p.1 p.2 = Tile.wall)
    · intro st2 x hst2
      split
      · rename_i hcond
        intro p hp2
        rcases List.mem_append.mp hp2 with h1 | h2
        · exact hst2 p h1
        · rw [List.mem_singleton.mp h2]
          exact hcond.1
      · exact hst2
    · exact hst
  · exact hp



/-- Selection without replacement returns at most `count` doors, all wall
cells, whenever the pool contains only wall cells. -/
theorem doorSelect_spec (g : Grid) (count : Nat) (pool : List Vec) (s s2 : Int)
    (doors : List Vec)
    (hpool : ∀ p ∈ pool, cellAt g p.1 p.2 = Tile.wall)
    (h : doorSelect count pool s = .ok (doors, s2)) :
    doors.length ≤ count ∧ ∀ d ∈ doors, cellAt g d.1 d.2 = Tile.wall := by
  unfold doorSelect at h
  obtain ⟨st, hfold, hpure⟩ := exBind_ok_iff.mp h
  have hinv := foldlM_invariant
    (P := fun st : List Vec × List Vec × Int =>
      st.1.length ≤ count ∧ (∀ d ∈ st.1, cellAt g d.1 d.2 = Tile.wall) ∧
        (∀ d ∈ st.2.1, cellAt g d.1 d.2 = Tile.wall))
    _ (List.range count) ?_ (([] : List Vec), pool, s) st
    ⟨Nat.zero_le count, fun d hd => absurd hd (List.not_mem_nil d), hpool⟩ hfold
  · obtain ⟨d0, p0, s0⟩ := st
    dsimp only at hpure
    cases hpure
    exact ⟨hinv.1, hinv.2.1⟩
  · intro acc x hx hacc b2 hb2
    obtain ⟨da, pa, sa⟩ := acc
    dsimp only at hb2
    split at hb2
    · rename_i hcond
      obtain ⟨door, hdoor, hb3⟩ := exBind_ok_iff.mp hb2
      cases hb3
      refine ⟨?_, ?_, ?_⟩
      · have h1 := hcond.1
        simp only [List.length_append, List.length_singleton]
        omega
      · intro d hd
        rcases List.mem_append.mp hd with h1 | h2
        · exact hacc.2.1 d h1
        · rw [List.mem_singleton.mp h2]
          exact hacc.2.2 door (indexList_mem hdoor)
      · intro d hd
        exact hacc.2.2 d (List.mem_of_mem_eraseIdx hd)
    · cases hb2
      exact hacc

/-- C7 (corrected).  Every result of generateDoorPositions has at most the
requested number of doors and every door coordinate is a Wall cell of the
grid at generation time (prior to baking).  The floor-neighbour property of
the original claim holds only for primary-scan candidates and fails once
the relaxed fallback widens the pool (see the counterexample). -/
theorem C7_doors (g : Grid) (count : Nat) (s s2 : Int) (doors : List Vec)
    (h : generateDoorPositions g count s = .ok (doors, s2)) :
    doors.length ≤ count ∧ ∀ d ∈ doors, cellAt g d.1 d.2 = Tile.wall := by
  unfold generateDoorPositions at h
  dsimp only at h
  split at h
  · exact doorSelect_spec g count _ s s2 doors
      (doorFallback_wall g (doorScan g) (doorScan_wall g)) h
  · exact doorSelect_spec g count _ s s2 doors (doorScan_wall g) h


/-- Witness for C7_doors on the grid of the C7 counterexample run. -/
theorem C7_doors_witness :
    generateDoorPositions c7stage 3 0 = .ok ([(2, 1), (2, 2), (1, 2)], 127551) ∧
      ([((2 : Int), (1 : Int)), (2, 2), (1, 2)].length ≤ 3 ∧
        ∀ d ∈ [((2 : Int), (1 : Int)), (2, 2), (1, 2)], cellAt c7stage d.1 d.2 = Tile.wall) :=
  ⟨by decide, C7_doors c7stage 3 0 127551 [(2, 1), (2, 2), (1, 2)] (by decide)⟩


/-- Element lookup in an integer range. -/
theorem intRange_get (a b : Int) (n : Nat) (h : n < (b - a).toNat) :
    (intRange a b).get? n = some (a + (n : Int)) := by
  unfold intRange
  rw [List.get?_eq_getElem?, List.getElem?_map, List.getElem?_range h]
  rfl

/-- Reading a cell of a grid built by mapping a cell function over the
coordinate ranges gives that function. -/
theorem cellAt_intRange_map (f : Int → Int → Tile) (w h x y : Int)
    (hx0 : 0 ≤ x) (hxw : x < w) (hy0 : 0 ≤ y) (hyh : y < h) :
    cellAt ((intRange 0 h).map (fun yy => (intRange 0 w).map (fun xx => f xx yy))) x y
      = f x y := by
  have hyn : y.toNat < (h - 0).toNat := by omega
  have hxn : x.toNat < (w - 0).toNat := by omega
  have hy2 : (0 : Int) + (y.toNat : Int) = y := by omega
  have hx2 : (0 : Int) + (x.toNat : Int) = x := by omega
  unfold cellAt gridRow
  rw [if_pos hy0, List.get?_map, intRange_get 0 h y.toNat hyn]
  unfold rowGet
  simp only [Option.map_some', hy2]
  rw [if_pos hx0, List.getD_eq_get?, List.get?_map, intRange_get 0 w x.toNat hxn]
  simp only [Option.map_some', Option.getD_some, hx2]

/-- One increment-or-skip loop step with two tests, as a count. -/
theorem step_count (acc : Nat) (A B : Prop) [Decidable A] [Decidable B] :
    (if A then acc + 1 else if B then acc + 1 else acc) =
      acc + (if A ∨ B then 1 else 0) := by
  by_cases hA : A
  · simp [hA]
  · by_cases hB : B <;> simp [hA, hB]

/-- A fold that adds a per-element contribution is the sum of the
contributions. -/
theorem foldl_shift {α : Type} (c : α → Nat) (f : Nat → α → Nat)
    (hf : ∀ acc x, f acc x = acc + c x) :
    ∀ (l : List α) (n : Nat), l.foldl f n = n + (l.map c).sum := by
  intro l
  induction l with
  | nil => intro n; simp
  | cons x xs ih =>
    intro n
    rw [List.foldl_cons, hf n x, ih]
    simp [List.sum_cons]
    omega

/-- The wall counter of applyCellularAutomataRules counts exactly the walls
(or out-of-grid positions) of the 3 x 3 block, the cell itself included. -/
theorem caWallCount_eq (g : Grid) (w h x y : Int) :
    caWallCount g w h x y = blockWallCount g w h x y := by
  unfold caWallCount blockWallCount
  rw [foldl_shift (fun dy => (([-1, 0, 1] : List Int).map (fun dx =>
        if (x + dx < 0 ∨ x + dx ≥ w ∨ y + dy < 0 ∨ y + dy ≥ h) ∨
            cellAt g (x + dx) (y + dy) = Tile.wall then 1 else 0)).sum)]
  · simp only [List.map, List.sum_cons, List.sum_nil, neighborhood9, List.countP_cons,
      List.countP_nil, Bool.or_eq_true, decide_eq_true_eq, ge_iff_le]
    norm_num [sub_eq_add_neg]
    try ring_nf
    try omega
  · intro acc dy
    apply foldl_shift
    intro acc2 dx
    exact step_count acc2 _ _



/-- One increment-or-skip loop step with a single test, as a count. -/
theorem step_count1 (acc : Nat) (A : Prop) [Decidable A] :
    (if A then acc + 1 else acc) = acc + (if A then 1 else 0) := by
  by_cases hA : A <;> simp [hA]

/-- The wall counter of smoothCaves counts exactly the wall cells of the
3 x 3 block, the cell itself included. -/
theorem smoothWallCount_eq (g : Grid) (x y : Int) :
    smoothWallCount g x y =
      (neighborhood9 x y).countP (fun p => decide (cellAt g p.1 p.2 = Tile.wall)) := by
  unfold smoothWallCount
  rw [foldl_shift (fun dy => (([-1, 0, 1] : List Int).map (fun dx =>
        if cellAt g (x + dx) (y + dy) = Tile.wall then 1 else 0)).sum)]
  · simp only [List.map, List.sum_cons, List.sum_nil, neighborhood9, List.countP_cons,
      List.countP_nil, decide_eq_true_eq]
    norm_num [sub_eq_add_neg]
    try ring_nf
    try omega
  · intro acc dy
    apply foldl_shift
    intro acc2 dx
    exact step_count1 acc2 _

/-- Away from the grid edge the out-of-grid clause of the block count is
vacuous. -/
theorem blockWallCount_interior (g : Grid) (w h x y : Int)
    (hx : 1 ≤ x) (hxw : x ≤ w - 2) (hy : 1 ≤ y) (hyh : y ≤ h - 2) :
    blockWallCount g w h x y =
      (neighborhood9 x y).countP (fun p => decide (cellAt g p.1 p.2 = Tile.wall)) := by
  unfold blockWallCount
  apply List.countP_congr
  intro p hp
  have hoob : ¬ (p.1 < 0 ∨ w ≤ p.1 ∨ p.2 < 0 ∨ h ≤ p.2) := by
    simp only [neighborhood9, List.mem_cons, List.not_mem_nil, or_false] at hp
    rcases hp with rfl | rfl | rfl | rfl | rfl | rfl | rfl | rfl | rfl <;> dsimp <;> omega
  simp [hoob]

/-- C6 (corrected).  Every cellular-automata generation is a synchronous
update in which a cell becomes Wall exactly when the nine cells of its
3 x 3 block (the cell itself included, out-of-grid positions counted as
Wall) contain at least five walls; a smoothing round of the noise-caves
strategy applies the same nine-cell rule to interior cells only and leaves
border cells unchanged. -/
theorem C6_rule :
    (∀ (g : Grid) (w h x y : Int), 0 ≤ x → x < w → 0 ≤ y → y < h →
        cellAt (applyCellularAutomataRules g w h) x y =
          if 5 ≤ blockWallCount g w h x y then Tile.wall else Tile.floor) ∧
      (∀ (g g2 : Grid), smoothCaves g = .ok g2 →
        ∀ x y : Int, 0 ≤ x → x < ((g.headD []).length : Int) →
          0 ≤ y → y < (g.length : Int) →
          cellAt g2 x y =
            if 1 ≤ y ∧ y ≤ (g.length : Int) - 2 ∧ 1 ≤ x ∧
                x ≤ ((g.headD []).length : Int) - 2 then
              (if 5 ≤ blockWallCount g ((g.headD []).length : Int) (g.length : Int) x y
                then Tile.wall else Tile.floor)
            else cellAt g x y) := by
  constructor
  · intro g w h x y hx0 hxw hy0 hyh
    unfold applyCellularAutomataRules
    rw [cellAt_intRange_map _ w h x y hx0 hxw hy0 hyh, caWallCount_eq]
  · intro g g2 hs x y hx0 hxw hy0 hyh
    cases g with
    | nil =>
      rw [smoothCaves] at hs
      cases hs
    | cons r0 grest =>
      rw [smoothCaves] at hs
      simp only [List.headD_cons] at hs hxw ⊢
      cases hs
      rw [cellAt_intRange_map _ _ _ x y hx0 hxw hy0 hyh]
      by_cases hint : 1 ≤ y ∧ y ≤ ((r0 :: grest).length : Int) - 2 ∧ 1 ≤ x ∧
          x ≤ ((r0 : Row).length : Int) - 2
      · rw [if_pos hint, if_pos hint, smoothWallCount_eq]
        simp only [blockWallCount_interior _ _ _ x y hint.2.2.1 hint.2.2.2 hint.1
          hint.2.1, ge_iff_le]
      · rw [if_neg hint, if_neg hint]


/-- Witness for C6_rule: the cellular rule at the centre of `c6grid` and the
smoothing round at its border cell (2,0). -/
theorem C6_rule_witness :
    cellAt (applyCellularAutomataRules c6grid 3 3) 1 1 =
        (if 5 ≤ blockWallCount c6grid 3 3 1 1 then Tile.wall else Tile.floor) ∧
      cellAt c6grid 2 0 =
        (if 1 ≤ (0 : Int) ∧ (0 : Int) ≤ (c6grid.length : Int) - 2 ∧ 1 ≤ (2 : Int) ∧
            (2 : Int) ≤ ((c6grid.headD []).length : Int) - 2 then
          (if 5 ≤ blockWallCount c6grid ((c6grid.headD []).length : Int)
              (c6grid.length : Int) 2 0 then Tile.wall else Tile.floor)
        else cellAt c6grid 2 0) :=
  ⟨C6_rule.1 c6grid 3 3 1 1 (by decide) (by decide) (by decide) (by decide),
    C6_rule.2 c6grid c6grid (by decide) 2 0 (by decide) (by decide) (by decide)
      (by decide)⟩


/-- Membership in an integer loop range. -/
theorem intRange_mem {a b p : Int} : p ∈ intRange a b ↔ a ≤ p ∧ p < b := by
  unfold intRange
  simp only [List.mem_map, List.mem_range, Int.ofNat_eq_coe]
  constructor
  · rintro ⟨i, hi, rfl⟩
    omega
  · intro ⟨h1, h2⟩
    refine ⟨(p - a).toNat, by omega, by omega⟩

/-- A shaped grid has the stated number of rows. -/
theorem gridShaped_length {g : Grid} {w h : Int} (hs : gridShaped g w h) :
    (g.length : Int) = h := hs.1

/-- Every row of a shaped grid has the stated length. -/
theorem rowLen_of_shaped {g : Grid} {w h y : Int} (hs : gridShaped g w h)
    (hy0 : 0 ≤ y) (hyh : y < h) : rowLen g y = w := by
  unfold rowLen gridRow
  rw [if_pos hy0]
  cases hg : g.get? y.toNat with
  | none =>
    rw [List.get?_eq_none] at hg
    have := hs.1
    omega
  | some r =>
    have hr : r ∈ g := List.get?_mem hg
    simpa using hs.2 r hr

/-- Reading a cell through an explicitly known row. -/
theorem cellAt_eq_rowGet {g : Grid} {y : Int} {r : Row}
    (hy0 : 0 ≤ y) (hr : g.get? y.toNat = some r) (x : Int) :
    cellAt g x y = rowGet r x := by
  unfold cellAt gridRow
  rw [if_pos hy0, hr]

/-- A write into an existing row succeeds and equals the total write. -/
theorem writeCell_ok {g : Grid} {y : Int} (x : Int) (v : Tile)
    (hy0 : 0 ≤ y) (hyh : y.toNat < g.length) :
    writeCell g x y v = .ok (setCellQ g x y v) := by
  unfold writeCell setCellQ gridRow
  rw [if_pos hy0]
  cases hg : g.get? y.toNat with
  | none =>
    rw [List.get?_eq_none] at hg
    omega
  | some r => rfl

/-- Writing a cell does not change the number of rows. -/
theorem setCellQ_length (g : Grid) (x y : Int) (v : Tile) :
    (setCellQ g x y v).length = g.length := by
  unfold setCellQ
  cases gridRow g y with
  | none => rfl
  | some r => simp

/-- An in-range row write does not change the row length. -/
theorem rowSet_length {r : Row} {x : Int} (v : Tile) (hx : 0 ≤ x)
    (hxr : x.toNat < r.length) : (rowSet r x v).length = r.length := by
  unfold rowSet
  rw [if_neg (by omega), if_pos hxr]
  simp

/-- A write at a column inside the nominal width preserves the shape. -/
theorem setCellQ_shaped {g : Grid} {w h x y : Int} (v : Tile)
    (hs : gridShaped g w h) (hx0 : 0 ≤ x) (hxw : x < w) :
    gridShaped (setCellQ g x y v) w h := by
  unfold setCellQ
  cases hg : gridRow g y with
  | none => exact hs
  | some r =>
    constructor
    · simp [hs.1]
    · intro r2 hr2
      rcases List.mem_or_eq_of_mem_set hr2 with h1 | h2
      · exact hs.2 r2 h1
      · subst h2
        have hrg : r ∈ g := by
          unfold gridRow at hg
          split at hg
          · exact List.get?_mem hg
          · cases hg
        have hlen : (r.length : Int) = w := hs.2 r hrg
        rw [rowSet_length v hx0 (by omega)]
        exact hlen



/-- Reading back the written position of a row, including the extension
case. -/
theorem rowGet_set {r : Row} {x : Int} (v : Tile) (hx0 : 0 ≤ x) :
    rowGet (rowSet r x v) x = v := by
  unfold rowGet rowSet
  rw [if_pos hx0, if_neg (by omega : ¬ x < 0)]
  split
  · rename_i hlt
    rw [List.getD_eq_get?, List.get?_set_eq]
    cases hg : r.get? x.toNat with
    | none =>
      rw [List.get?_eq_none] at hg
      omega
    | some t => simp
  · rename_i hge
    rw [List.getD_eq_get?]
    have hlen : (r ++ List.replicate (x.toNat - r.length) Tile.undef).length = x.toNat := by
      simp
      omega
    nth_rewrite 2 [← hlen]
    rw [List.get?_concat_length]
    rfl

/-- A row write leaves every other position unchanged (holes read as
`undefined`, exactly what the out-of-range read gave before). -/
theorem rowGet_set_ne {r : Row} {x a : Int} (v : Tile) (hne : a ≠ x) :
    rowGet (rowSet r x v) a = rowGet r a := by
  unfold rowGet rowSet
  by_cases ha0 : 0 ≤ a
  · rw [if_pos ha0, if_pos ha0]
    by_cases hx0 : x < 0
    · rw [if_pos hx0]
    · rw [if_neg hx0]
      have hxa : a.toNat ≠ x.toNat := by omega
      split
      · rw [List.getD_eq_get?, List.getD_eq_get?, List.get?_set_ne _ _ hxa.symm]
      · rename_i hge
        rw [List.getD_eq_get?, List.getD_eq_get?]
        rcases Nat.lt_or_ge a.toNat r.length with hlt | hge2
        · rw [List.get?_append
              (by rw [List.length_append, List.length_replicate]; omega),
            List.get?_append (by simpa using hlt)]
        · rcases Nat.lt_or_ge a.toNat x.toNat with h1 | h2
          · rw [List.get?_append
              (by rw [List.length_append, List.length_replicate]; omega),
              List.get?_append_right (by simpa using hge2)]
            have hrep : (List.replicate (x.toNat - r.length) Tile.undef).get?
                (a.toNat - r.length) = some Tile.undef := by
              rw [List.get?_eq_getElem?, List.getElem?_replicate, if_pos (by omega)]
            rw [hrep, (List.get?_eq_none.mpr (by omega) : List.get? r a.toNat = none)]
            rfl
          · rw [(List.get?_eq_none.mpr (by
                rw [List.length_append, List.length_append, List.length_replicate]
                simp only [List.length_singleton]
                omega) :
              List.get? (r ++ List.replicate (x.toNat - r.length) Tile.undef ++ [v])
                a.toNat = none),
              (List.get?_eq_none.mpr (by omega) : List.get? r a.toNat = none)]
  · rw [if_neg ha0, if_neg ha0]



/-- Reading back a written cell. -/
theorem cellAt_setCellQ_same {g : Grid} {x y : Int} (v : Tile)
    (hx0 : 0 ≤ x) (hy0 : 0 ≤ y) (hyh : y.toNat < g.length) :
    cellAt (setCellQ g x y v) x y = v := by
  unfold setCellQ
  cases hg : gridRow g y with
  | none =>
    unfold gridRow at hg
    rw [if_pos hy0, List.get?_eq_none] at hg
    omega
  | some r =>
    unfold gridRow at hg
    rw [if_pos hy0] at hg
    unfold cellAt gridRow
    rw [if_pos hy0, List.get?_set_eq, hg]
    exact rowGet_set v hx0

/-- A cell write leaves every other coordinate unchanged. -/
theorem cellAt_setCellQ_ne {g : Grid} {x y a b : Int} (v : Tile)
    (hne : (a, b) ≠ (x, y)) :
    cellAt (setCellQ g x y v) a b = cellAt g a b := by
  unfold setCellQ
  cases hg : gridRow g y with
  | none => rfl
  | some r =>
    unfold cellAt gridRow
    by_cases hb0 : 0 ≤ b
    · rw [if_pos hb0, if_pos hb0]
      unfold gridRow at hg
      by_cases hy0 : 0 ≤ y
      · rw [if_pos hy0] at hg
        by_cases hby : b.toNat = y.toNat
        · have hbyeq : b = y := by omega
          subst hbyeq
          have hax : a ≠ x := by
            intro hax
            exact hne (by rw [hax])
          rw [List.get?_set_eq, hg]
          exact rowGet_set_ne v hax
        · rw [List.get?_set_ne _ _ (fun hh => hby hh.symm)]
      · rw [if_neg hy0] at hg
        cases hg
    · rw [if_neg hb0, if_neg hb0]

/-- Reading from an existing row never throws. -/
theorem readCell_ok {g : Grid} {y : Int} (x : Int)
    (hy0 : 0 ≤ y) (hyh : y.toNat < g.length) :
    readCell g x y = .ok (cellAt g x y) := by
  unfold readCell cellAt gridRow
  rw [if_pos hy0]
  cases hg : g.get? y.toNat with
  | none =>
    rw [List.get?_eq_none] at hg
    omega
  | some r => rfl

/-- From a nonnegative state, `Math.floor(rng() * n)` lies in `[0, n)` for
positive `n`, and the new state is one LCG step. -/
theorem drawIdx_bounds {s n : Int} (hs : 0 ≤ s) (hn : 1 ≤ n) :
    0 ≤ (drawIdx s n).1 ∧ (drawIdx s n).1 < n ∧ (drawIdx s n).2 = lcgNext s := by
  have hb := lcgNext_bounds s hs
  unfold drawIdx
  dsimp only
  refine ⟨Int.fdiv_nonneg (mul_nonneg hb.1 (by omega)) (by norm_num), ?_, rfl⟩
  rw [Int.fdiv_eq_ediv _ (by norm_num)]
  rw [Int.ediv_lt_iff_lt_mul (by norm_num)]
  calc lcgNext s * n < 233280 * n := by
        apply mul_lt_mul_of_pos_right hb.2
        omega
    _ = n * 233280 := mul_comm _ _

/-- A monadic fold all of whose steps succeed from `P`-states succeeds and
preserves `P`. -/
theorem foldlM_ok {α β : Type} (P : β → Prop) {f : β → α → Except JsError β} :
    ∀ (l : List α), (∀ acc x, x ∈ l → P acc → ∃ b2, f acc x = .ok b2 ∧ P b2) →
    ∀ init, P init → ∃ res, l.foldlM f init = .ok res ∧ P res := by
  intro l
  induction l with
  | nil =>
    intro _ init hinit
    exact ⟨init, rfl, hinit⟩
  | cons x xs ih =>
    intro hstep init hinit
    obtain ⟨b2, hb2, hP2⟩ := hstep init x (List.mem_cons_self x xs) hinit
    obtain ⟨res, hres, hPres⟩ :=
      ih (fun acc z hz => hstep acc z (List.mem_cons_of_mem x hz)) b2 hP2
    refine ⟨res, ?_, hPres⟩
    have hc : (x :: xs).foldlM f init = f init x >>= fun b => xs.foldlM f b := rfl
    rw [hc, hb2, exBind_ok]
    exact hres




/-- Bind of a pure value reduces. -/
theorem exBind_pure {α β : Type} (a : α) (f : α → Except JsError β) :
    ((pure a : Except JsError α) >>= f) = f a := rfl

/-- Appending one in-bounds coordinate preserves the all-in-bounds invariant. -/
theorem append_single_bounds {w h : Int} {l : List Vec} {c : Vec}
    (hl : ∀ e ∈ l, inBounds w h e) (hc : inBounds w h c) :
    ∀ e ∈ l ++ [c], inBounds w h e := by
  intro e he
  rcases List.mem_append.mp he with h1 | h2
  · exact hl e h1
  · rw [List.mem_singleton.mp h2]
    exact hc

/-- The guarded append used by the connection scan preserves in-boundedness. -/
theorem ite_append_bounds {w h : Int} {l : List Vec} {c : Vec} (t : Tile)
    (hl : ∀ e ∈ l, inBounds w h e) (hc : inBounds w h c) :
    ∀ e ∈ (if t = Tile.floor then l ++ [c] else l), inBounds w h e := by
  split
  · exact append_single_bounds hl hc
  · exact hl

/-- Success of a bind from success of both stages, transporting an invariant. -/
theorem exists_bind_ok {α β : Type} {x : Except JsError α} {f : α → Except JsError β}
    {Q : α → Prop} {P : β → Prop} (hx : ∃ a, x = .ok a ∧ Q a)
    (hf : ∀ a, Q a → ∃ b, f a = .ok b ∧ P b) :
    ∃ b, (x >>= f) = .ok b ∧ P b := by
  obtain ⟨a, ha, hQ⟩ := hx
  obtain ⟨b, hb, hP⟩ := hf a hQ
  exact ⟨b, by rw [ha, exBind_ok, hb], hP⟩

/-- When the room rectangle sits strictly inside the grid, the connection scan
succeeds and every candidate connection point is in bounds. -/
theorem roomConnections_ok (g : Grid) (w h roomX roomY roomW roomH : Int)
    (hsh : gridShaped g w h) (hw1 : 1 ≤ roomW) (hh1 : 1 ≤ roomH)
    (hy1 : 1 ≤ roomY) (hy2 : roomY + roomH ≤ h - 2)
    (hx1 : 1 ≤ roomX) (hx2 : roomX + roomW ≤ w - 2) :
    ∃ conns, roomConnections g roomX roomY roomW roomH = .ok conns ∧
      ∀ c ∈ conns, inBounds w h c := by
  have hlen : (g.length : Int) = h := hsh.1
  have hread : ∀ (x y : Int), 0 ≤ y → y < h → readCell g x y = .ok (cellAt g x y) := by
    intro x y h0 hh2
    exact readCell_ok x h0 (by omega)
  unfold roomConnections
  dsimp only
  apply exists_bind_ok (Q := fun top : List Vec => ∀ c ∈ top, inBounds w h c)
  · apply foldlM_ok (P := fun acc : List Vec => ∀ c ∈ acc, inBounds w h c)
      (intRange roomX (roomX + roomW)) ?_ [] (by intro c hc; cases hc)
    intro acc x hx hacc
    have hxb := intRange_mem.mp hx
    by_cases hg1 : roomY > 1
    · rw [if_pos hg1, hread x (roomY - 2) (by omega) (by omega), exBind_ok, exBind_pure]
      by_cases hg2 : roomY + roomH < (g.length : Int) - 1
      · rw [if_pos hg2, hread x (roomY + roomH + 1) (by omega) (by omega), exBind_ok]
        exact ⟨_, rfl, ite_append_bounds _
          (ite_append_bounds _ hacc ⟨by omega, by omega, by omega, by omega⟩)
          ⟨by omega, by omega, by omega, by omega⟩⟩
      · rw [if_neg hg2]
        exact ⟨_, rfl, ite_append_bounds _ hacc ⟨by omega, by omega, by omega, by omega⟩⟩
    · rw [if_neg hg1, exBind_pure]
      by_cases hg2 : roomY + roomH < (g.length : Int) - 1
      · rw [if_pos hg2, hread x (roomY + roomH + 1) (by omega) (by omega), exBind_ok]
        exact ⟨_, rfl, ite_append_bounds _ hacc ⟨by omega, by omega, by omega, by omega⟩⟩
      · rw [if_neg hg2]
        exact ⟨_, rfl, hacc⟩
  intro top htopinv
  apply foldlM_ok (P := fun acc : List Vec => ∀ c ∈ acc, inBounds w h c)
    (intRange roomY (roomY + roomH)) ?_ top htopinv
  intro acc y hy hacc
  have hyb := intRange_mem.mp hy
  by_cases hg1 : roomX > 1
  · rw [if_pos hg1, hread (roomX - 2) y (by omega) (by omega), exBind_ok, exBind_pure]
    by_cases hg2 : roomX + roomW < ((g.headD []).length : Int) - 1
    · rw [if_pos hg2, hread (roomX + roomW + 1) y (by omega) (by omega), exBind_ok]
      exact ⟨_, rfl, ite_append_bounds _
        (ite_append_bounds _ hacc ⟨by omega, by omega, by omega, by omega⟩)
        ⟨by omega, by omega, by omega, by omega⟩⟩
    · rw [if_neg hg2]
      exact ⟨_, rfl, ite_append_bounds _ hacc ⟨by omega, by omega, by omega, by omega⟩⟩
  · rw [if_neg hg1, exBind_pure]
    by_cases hg2 : roomX + roomW < ((g.headD []).length : Int) - 1
    · rw [if_pos hg2, hread (roomX + roomW + 1) y (by omega) (by omega), exBind_ok]
      exact ⟨_, rfl, ite_append_bounds _ hacc ⟨by omega, by omega, by omega, by omega⟩⟩
    · rw [if_neg hg2]
      exact ⟨_, rfl, hacc⟩





/-- Indexing succeeds on any in-range nonnegative index. -/
theorem indexList_ok {α : Type} {l : List α} {i : Int}
    (h0 : 0 ≤ i) (hlt : i.toNat < l.length) : ∃ a, indexList l i = .ok a := by
  unfold indexList
  rw [if_pos h0]
  cases hg : l.get? i.toNat with
  | none =>
    rw [List.get?_eq_none] at hg
    omega
  | some a => exact ⟨a, rfl⟩

/-- Unpacking a pair-valued success. -/
theorem exists_ok_pair {E A B : Type} {x : Except E (A × B)} {Q : A → B → Prop}
    (h : ∃ st, x = .ok st ∧ Q st.1 st.2) : ∃ a b, x = .ok (a, b) ∧ Q a b := by
  obtain ⟨⟨a, b⟩, h1, h2⟩ := h
  exact ⟨a, b, h1, h2⟩

/-- For a room strictly inside the grid and a nonnegative rng state, the
connector write succeeds, preserves the shape and keeps the state nonnegative. -/
theorem connectRoomToMaze_ok (g : Grid) (w h roomX roomY roomW roomH s : Int)
    (hsh : gridShaped g w h) (hs : 0 ≤ s) (hw1 : 1 ≤ roomW) (hh1 : 1 ≤ roomH)
    (hy1 : 1 ≤ roomY) (hy2 : roomY + roomH ≤ h - 2)
    (hx1 : 1 ≤ roomX) (hx2 : roomX + roomW ≤ w - 2) :
    ∃ g2 s2, connectRoomToMaze g roomX roomY roomW roomH s = .ok (g2, s2) ∧
      gridShaped g2 w h ∧ 0 ≤ s2 := by
  obtain ⟨conns, hc, hcb⟩ :=
    roomConnections_ok g w h roomX roomY roomW roomH hsh hw1 hh1 hy1 hy2 hx1 hx2
  unfold connectRoomToMaze
  rw [hc, exBind_ok]
  by_cases hne : conns.length > 0
  · rw [if_pos hne]
    cases hD : drawIdx s (conns.length : Int) with
    | mk i s1 =>
    have hd := drawIdx_bounds (s := s) (n := (conns.length : Int)) hs (by omega)
    rw [hD] at hd
    dsimp only at hd ⊢
    obtain ⟨c, hcidx⟩ := indexList_ok (l := conns) hd.1 (by omega)
    rw [hcidx, exBind_ok]
    have hcin := hcb c (indexList_mem hcidx)
    have hcy0 : 0 ≤ c.2 := hcin.2.2.1
    have hcyh : c.2 < h := hcin.2.2.2
    rw [writeCell_ok c.1 Tile.floor hcy0 (by have := hsh.1; omega)]
    rw [exBind_ok]
    refine ⟨_, _, rfl, setCellQ_shaped _ hsh hcin.1 hcin.2.1, ?_⟩
    rw [hd.2.2]
    exact (lcgNext_bounds s hs).1
  · rw [if_neg hne]
    exact ⟨g, s, rfl, hsh, hs⟩

/-- The nested carve loops of a room strictly inside the grid succeed and
preserve the grid shape. -/
theorem roomCarve_ok (g : Grid) (w h roomX roomY roomW roomH : Int)
    (hsh : gridShaped g w h)
    (hx1 : 1 ≤ roomX) (hx2 : roomX + roomW ≤ w - 2)
    (hy1 : 1 ≤ roomY) (hy2 : roomY + roomH ≤ h - 2) :
    ∃ g2, (intRange roomY (roomY + roomH)).foldlM (fun gg y =>
        (intRange roomX (roomX + roomW)).foldlM (fun gg2 x =>
          writeCell gg2 x y Tile.floor) gg) g = .ok g2 ∧ gridShaped g2 w h := by
  apply foldlM_ok (P := fun gg => gridShaped gg w h) _ ?_ g hsh
  intro gg y hy hggs
  have hyb := intRange_mem.mp hy
  apply foldlM_ok (P := fun gg => gridShaped gg w h) _ ?_ gg hggs
  intro gg2 x hx hgg2
  have hxb := intRange_mem.mp hx
  rw [writeCell_ok x Tile.floor (by omega) (by have := hgg2.1; omega)]
  exact ⟨_, rfl, setCellQ_shaped _ hgg2 (by omega) (by omega)⟩

/-- Under the bound maxRoomSize + 4 at most min(width, height) and a
nonnegative rng state, room injection performs no out-of-bounds access: it
succeeds, preserves the grid shape, and keeps the rng state nonnegative. -/
theorem addRandomRooms_ok (g : Grid) (w h minS maxS count s : Int)
    (hsh : gridShaped g w h)
    (hmin : 1 ≤ minS) (hminmax : minS ≤ maxS)
    (hw : maxS + 4 ≤ w) (hh2 : maxS + 4 ≤ h) (hs : 0 ≤ s) :
    ∃ g2 s2, addRandomRooms g minS maxS count s = .ok (g2, s2) ∧
      gridShaped g2 w h ∧ 0 ≤ s2 := by
  unfold addRandomRooms
  cases g with
  | nil =>
    have := hsh.1
    simp only [List.length_nil, Nat.cast_zero] at this
    omega
  | cons r0 grest =>
    dsimp only
    have hw0 : ((r0.length : Nat) : Int) = w := hsh.2 r0 (List.mem_cons_self r0 grest)
    have hh0 : (((r0 :: grest).length : Nat) : Int) = h := hsh.1
    rw [hw0, hh0]
    apply exists_ok_pair
    apply foldlM_ok (P := fun st : Grid × Int => gridShaped st.1 w h ∧ 0 ≤ st.2)
      _ ?_ (r0 :: grest, s) ⟨hsh, hs⟩
    intro st _ _ hst
    obtain ⟨g0, s0⟩ := st
    obtain ⟨hst1, hst2⟩ := hst
    dsimp only
    cases hD1 : drawIdx s0 (maxS - minS + 1) with
    | mk a s1 =>
    have hb1 := drawIdx_bounds (s := s0) (n := maxS - minS + 1) hst2 (by omega)
    rw [hD1] at hb1
    dsimp only at hb1 ⊢
    have hs1 : 0 ≤ s1 := by
      rw [hb1.2.2]
      exact (lcgNext_bounds s0 hst2).1
    cases hD2 : drawIdx s1 (maxS - minS + 1) with
    | mk b s2 =>
    have hb2 := drawIdx_bounds (s := s1) (n := maxS - minS + 1) hs1 (by omega)
    rw [hD2] at hb2
    dsimp only at hb2 ⊢
    have hs2 : 0 ≤ s2 := by
      rw [hb2.2.2]
      exact (lcgNext_bounds s1 hs1).1
    cases hD3 : drawIdx s2 (w - (minS + a) - 2) with
    | mk c s3 =>
    have hb3 := drawIdx_bounds (s := s2) (n := w - (minS + a) - 2) hs2 (by omega)
    rw [hD3] at hb3
    dsimp only at hb3 ⊢
    have hs3 : 0 ≤ s3 := by
      rw [hb3.2.2]
      exact (lcgNext_bounds s2 hs2).1
    cases hD4 : drawIdx s3 (h - (minS + b) - 2) with
    | mk d s4 =>
    have hb4 := drawIdx_bounds (s := s3) (n := h - (minS + b) - 2) hs3 (by omega)
    rw [hD4] at hb4
    dsimp only at hb4 ⊢
    have hs4 : 0 ≤ s4 := by
      rw [hb4.2.2]
      exact (lcgNext_bounds s3 hs3).1
    apply exists_bind_ok (Q := fun gg : Grid => gridShaped gg w h)
    · exact roomCarve_ok g0 w h (1 + c) (1 + d) (minS + a) (minS + b) hst1
        (by omega) (by omega) (by omega) (by omega)
    · intro g1 hg1
      obtain ⟨gg2, ss2, heq, hshape, hss⟩ :=
        connectRoomToMaze_ok g1 w h (1 + c) (1 + d) (minS + a) (minS + b) s4
          hg1 hs4 (by omega) (by omega) (by omega) (by omega) (by omega) (by omega)
      exact ⟨(gg2, ss2), heq, hshape, hss⟩






theorem foldl_preserve_mem {α β : Type} (P : β → Prop) (f : β → α → β) :
    ∀ (l : List α), (∀ acc x, x ∈ l → P acc → P (f acc x)) →
    ∀ acc, P acc → P (l.foldl f acc) := by
  intro l
  induction l with
  | nil => exact fun _ acc h => h
  | cons x xs ih =>
    intro hf acc h
    exact ih (fun a z hz => hf a z (List.mem_cons_of_mem x hz)) _
      (hf acc x (List.mem_cons_self x xs) h)

theorem foldl_establish {α β : Type} (I : β → Prop) (P : α → β → Prop) (f : β → α → β) :
    ∀ (l : List α),
    (∀ acc a, a ∈ l → I acc → I (f acc a)) →
    (∀ acc a, a ∈ l → I acc → P a (f acc a)) →
    (∀ acc a b, b ∈ l → P a acc → P a (f acc b)) →
    ∀ acc, I acc → ∀ a ∈ l, P a (l.foldl f acc) := by
  intro l
  induction l with
  | nil => exact fun _ _ _ _ _ a ha => absurd ha (List.not_mem_nil a)
  | cons x xs ih =>
    intro hI hset hpers acc hacc a ha
    rcases List.mem_cons.mp ha with rfl | hmem
    · exact foldl_preserve_mem (P a) f xs
        (fun acc2 b hb hp => hpers acc2 a b (List.mem_cons_of_mem a hb) hp) _
        (hset acc a (List.mem_cons_self a xs) hacc)
    · exact ih (fun acc2 b hb h2 => hI acc2 b (List.mem_cons_of_mem x hb) h2)
        (fun acc2 b hb h2 => hset acc2 b (List.mem_cons_of_mem x hb) h2)
        (fun acc2 b c hc h2 => hpers acc2 b c (List.mem_cons_of_mem x hc) h2)
        (f acc x) (hI acc x (List.mem_cons_self x xs) hacc) a hmem

theorem writeCell_eq {g g2 : Grid} {x y : Int} {v : Tile}
    (h : writeCell g x y v = .ok g2) : g2 = setCellQ g x y v := by
  unfold writeCell at h
  unfold setCellQ
  cases hr : gridRow g y with
  | none => rw [hr] at h; cases h
  | some r => rw [hr] at h; cases h; rfl

theorem writeCell_shape_inv {g g2 : Grid} {w h x y : Int} {v : Tile}
    (hsh : gridShaped g w h) (hx0 : 0 ≤ x) (hxw : x < w)
    (hw : writeCell g x y v = .ok g2) : gridShaped g2 w h := by
  rw [writeCell_eq hw]
  exact setCellQ_shaped v hsh hx0 hxw

theorem cellAt_setCellQ_wall {g : Grid} {x y a b : Int}
    (hwall : cellAt g a b = Tile.wall) :
    cellAt (setCellQ g x y Tile.wall) a b = Tile.wall := by
  by_cases heq : (a, b) = (x, y)
  · have hax : a = x := congrArg Prod.fst heq
    have hby : b = y := congrArg Prod.snd heq
    subst hax
    subst hby
    by_cases ha0 : 0 ≤ a
    · by_cases hb0 : 0 ≤ b
      · by_cases hbl : b.toNat < g.length
        · exact cellAt_setCellQ_same Tile.wall ha0 hb0 hbl
        · have hrow : gridRow g b = none := by
            unfold gridRow
            rw [if_pos hb0]
            exact List.get?_eq_none.mpr (by omega)
          unfold setCellQ
          rw [hrow]
          exact hwall
      · have hrow : gridRow g b = none := by
          unfold gridRow
          rw [if_neg hb0]
        unfold setCellQ
        rw [hrow]
        exact hwall
    · exfalso
      unfold cellAt at hwall
      cases hr : gridRow g b with
      | none => rw [hr] at hwall; cases hwall
      | some r =>
        rw [hr] at hwall
        dsimp only at hwall
        unfold rowGet at hwall
        rw [if_neg ha0] at hwall
        cases hwall
  · rw [cellAt_setCellQ_ne Tile.wall heq]
    exact hwall

theorem intRange_length (a b : Int) : (intRange a b).length = (b - a).toNat := by
  unfold intRange
  rw [List.length_map, List.length_range]

theorem initGrid_shaped {w h : Int} (hw : 0 ≤ w) (hh : 0 ≤ h) (t : Tile) :
    gridShaped (initGrid w h t) w h := by
  unfold initGrid
  constructor
  · rw [List.length_replicate]
    omega
  · intro r hr
    rw [List.eq_of_mem_replicate hr, List.length_replicate]
    omega

theorem ebwRows_ok {g : Grid} {w h : Int} (hsh : gridShaped g w h) (hh1 : 1 ≤ h) :
    gridShaped ((intRange 0 w).foldl (fun gg x =>
      setCellQ (setCellQ gg x 0 Tile.wall) x (h - 1) Tile.wall) g) w h ∧
    ∀ x : Int, 0 ≤ x → x < w →
      cellAt ((intRange 0 w).foldl (fun gg x =>
        setCellQ (setCellQ gg x 0 Tile.wall) x (h - 1) Tile.wall) g) x 0 = Tile.wall ∧
      cellAt ((intRange 0 w).foldl (fun gg x =>
        setCellQ (setCellQ gg x 0 Tile.wall) x (h - 1) Tile.wall) g) x (h - 1) = Tile.wall := by
  constructor
  · apply foldl_preserve_mem (fun gg => gridShaped gg w h) _ _ ?_ _ hsh
    intro acc x hx hacc
    have hxb := intRange_mem.mp hx
    exact setCellQ_shaped _ (setCellQ_shaped _ hacc (by omega) (by omega))
      (by omega) (by omega)
  · intro x hx0 hxw
    apply foldl_establish (fun gg => gridShaped gg w h)
      (fun x gg => cellAt gg x 0 = Tile.wall ∧ cellAt gg x (h - 1) = Tile.wall)
      _ _ ?_ ?_ ?_ _ hsh x (intRange_mem.mpr ⟨hx0, hxw⟩)
    · intro acc a ha hacc
      have hab := intRange_mem.mp ha
      exact setCellQ_shaped _ (setCellQ_shaped _ hacc (by omega) (by omega))
        (by omega) (by omega)
    · intro acc a ha hacc
      have hab := intRange_mem.mp ha
      have hlen0 : (acc.length : Int) = h := hacc.1
      have hlen1 : ((setCellQ acc a 0 Tile.wall).length : Int) = h := by
        rw [setCellQ_length]
        exact hlen0
      constructor
      · by_cases hone : h - 1 = 0
        · rw [hone]
          exact cellAt_setCellQ_same Tile.wall (by omega) (by omega) (by omega)
        · rw [cellAt_setCellQ_ne Tile.wall (by
            intro hpq
            exact hone (congrArg Prod.snd hpq).symm)]
          exact cellAt_setCellQ_same Tile.wall (by omega) (by omega) (by omega)
      · exact cellAt_setCellQ_same Tile.wall (by omega) (by omega) (by omega)
    · intro acc a b hb hp
      exact ⟨cellAt_setCellQ_wall (cellAt_setCellQ_wall hp.1),
        cellAt_setCellQ_wall (cellAt_setCellQ_wall hp.2)⟩






theorem ebwCols_ok {g1 : Grid} {w h : Int} (hsh : gridShaped g1 w h) (hw1 : 1 ≤ w)
    (hrow0 : ∀ x : Int, 0 ≤ x → x < w → cellAt g1 x 0 = Tile.wall)
    (hrowh : ∀ x : Int, 0 ≤ x → x < w → cellAt g1 x (h - 1) = Tile.wall) :
    gridShaped ((intRange 0 h).foldl (fun gg y =>
      setCellQ (setCellQ gg 0 y Tile.wall) (w - 1) y Tile.wall) g1) w h ∧
    borderWalls ((intRange 0 h).foldl (fun gg y =>
      setCellQ (setCellQ gg 0 y Tile.wall) (w - 1) y Tile.wall) g1) w h := by
  have hshape : gridShaped ((intRange 0 h).foldl (fun gg y =>
      setCellQ (setCellQ gg 0 y Tile.wall) (w - 1) y Tile.wall) g1) w h := by
    apply foldl_preserve_mem (fun gg => gridShaped gg w h) _ _ ?_ _ hsh
    intro acc y hy hacc
    exact setCellQ_shaped _ (setCellQ_shaped _ hacc (by omega) (by omega))
      (by omega) (by omega)
  refine ⟨hshape, ?_⟩
  intro x y hx0 hxw hy0 hyh hb
  have hcols : ∀ yy : Int, 0 ≤ yy → yy < h →
      cellAt ((intRange 0 h).foldl (fun gg y =>
        setCellQ (setCellQ gg 0 y Tile.wall) (w - 1) y Tile.wall) g1) 0 yy = Tile.wall ∧
      cellAt ((intRange 0 h).foldl (fun gg y =>
        setCellQ (setCellQ gg 0 y Tile.wall) (w - 1) y Tile.wall) g1) (w - 1) yy
          = Tile.wall := by
    intro yy hyy0 hyyh
    apply foldl_establish (fun gg => gridShaped gg w h)
      (fun yy gg => cellAt gg 0 yy = Tile.wall ∧ cellAt gg (w - 1) yy = Tile.wall)
      _ _ ?_ ?_ ?_ _ hsh yy (intRange_mem.mpr ⟨hyy0, hyyh⟩)
    · intro acc a ha hacc
      exact setCellQ_shaped _ (setCellQ_shaped _ hacc (by omega) (by omega))
        (by omega) (by omega)
    · intro acc a ha hacc
      have hab := intRange_mem.mp ha
      have hlen0 : (acc.length : Int) = h := hacc.1
      have hlen1 : ((setCellQ acc 0 a Tile.wall).length : Int) = h := by
        rw [setCellQ_length]
        exact hlen0
      constructor
      · by_cases hone : w - 1 = 0
        · rw [hone]
          exact cellAt_setCellQ_same Tile.wall (by omega) (by omega) (by omega)
        · rw [cellAt_setCellQ_ne Tile.wall (by
            intro hpq
            exact hone (congrArg Prod.fst hpq).symm)]
          exact cellAt_setCellQ_same Tile.wall (by omega) (by omega) (by omega)
      · exact cellAt_setCellQ_same Tile.wall (by omega) (by omega) (by omega)
    · intro acc a b hb2 hp
      exact ⟨cellAt_setCellQ_wall (cellAt_setCellQ_wall hp.1),
        cellAt_setCellQ_wall (cellAt_setCellQ_wall hp.2)⟩
  have hpers : ∀ p : Vec, cellAt g1 p.1 p.2 = Tile.wall →
      cellAt ((intRange 0 h).foldl (fun gg y =>
        setCellQ (setCellQ gg 0 y Tile.wall) (w - 1) y Tile.wall) g1) p.1 p.2
        = Tile.wall := by
    intro p hp
    apply foldl_preserve_mem (fun gg => cellAt gg p.1 p.2 = Tile.wall) _ _ ?_ _ hp
    intro acc a ha hacc
    exact cellAt_setCellQ_wall (cellAt_setCellQ_wall hacc)
  rcases hb with rfl | hbx | hby | hbh
  · exact (hcols y hy0 hyh).1
  · rw [hbx]
    exact (hcols y hy0 hyh).2
  · rw [hby]
    exact hpers (x, 0) (hrow0 x hx0 hxw)
  · rw [hbh]
    exact hpers (x, h - 1) (hrowh x hx0 hxw)

/-- Boundary enforcement on a rectangular grid succeeds, keeps the shape and
walls the whole outer ring. -/
theorem ensureBoundaryWalls_ok {g : Grid} {w h : Int} (hsh : gridShaped g w h)
    (hw : 1 ≤ w) (hh : 1 ≤ h) :
    ∃ g2, ensureBoundaryWalls g = .ok g2 ∧ gridShaped g2 w h ∧ borderWalls g2 w h := by
  unfold ensureBoundaryWalls
  cases g with
  | nil =>
    have := hsh.1
    simp only [List.length_nil, Nat.cast_zero] at this
    omega
  | cons r0 grest =>
    dsimp only
    have hw0 : ((r0.length : Nat) : Int) = w := hsh.2 r0 (List.mem_cons_self r0 grest)
    have hh0 : (((r0 :: grest).length : Nat) : Int) = h := hsh.1
    rw [hw0, hh0]
    obtain ⟨hsh1, hrows⟩ := ebwRows_ok (g := r0 :: grest) hsh hh
    obtain ⟨hsh2, hbord⟩ := ebwCols_ok hsh1 hw
      (fun x hx0 hxw => (hrows x hx0 hxw).1) (fun x hx0 hxw => (hrows x hx0 hxw).2)
    exact ⟨_, rfl, hsh2, hbord⟩





theorem rbNeighbors_mem {w h : Int} {v : BoolGrid} {cur next : Vec}
    (hm : next ∈ rbNeighbors w h v cur) :
    (0 < next.1 ∧ next.1 < w - 1 ∧ 0 < next.2 ∧ next.2 < h - 1) ∧
    ∃ d ∈ rbDirections, next = (cur.1 + d.1, cur.2 + d.2) := by
  unfold rbNeighbors at hm
  rw [List.mem_filterMap] at hm
  obtain ⟨d, hd, hsome⟩ := hm
  dsimp only at hsome
  split at hsome
  · rename_i hcond
    cases hsome
    exact ⟨⟨hcond.1, hcond.2.1, hcond.2.2.1, hcond.2.2.2.1⟩, d, hd, rfl⟩
  · cases hsome

theorem rbWall_bounds {w h : Int} {v : BoolGrid} {cur next : Vec}
    (hcur : 0 < cur.1 ∧ cur.1 < w - 1 ∧ 0 < cur.2 ∧ cur.2 < h - 1)
    (hnext : next ∈ rbNeighbors w h v cur) :
    0 < cur.1 + (next.1 - cur.1) / 2 ∧ cur.1 + (next.1 - cur.1) / 2 < w - 1 ∧
    0 < cur.2 + (next.2 - cur.2) / 2 ∧ cur.2 + (next.2 - cur.2) / 2 < h - 1 := by
  obtain ⟨hb, d, hd, hn⟩ := rbNeighbors_mem hnext
  rw [hn] at hb
  rw [hn]
  dsimp only at hb
  dsimp only
  have hd4 : d = ((0 : Int), (-2 : Int)) ∨ d = (2, 0) ∨ d = (0, 2) ∨ d = (-2, 0) := by
    unfold rbDirections at hd
    simp only [List.mem_cons, List.not_mem_nil, or_false] at hd
    exact hd
  rcases hd4 with h1 | h1 | h1 | h1
  all_goals subst h1
  all_goals dsimp only at hb ⊢
  · have e1 : cur.1 + 0 - cur.1 = 0 := by ring
    have e2 : cur.2 + -2 - cur.2 = -2 := by ring
    rw [e1, e2]
    have d1 : (0 : Int) / 2 = 0 := by decide
    have d2 : (-2 : Int) / 2 = -1 := by decide
    rw [d1, d2]
    omega
  · have e1 : cur.1 + 2 - cur.1 = 2 := by ring
    have e2 : cur.2 + 0 - cur.2 = 0 := by ring
    rw [e1, e2]
    have d1 : (2 : Int) / 2 = 1 := by decide
    have d2 : (0 : Int) / 2 = 0 := by decide
    rw [d1, d2]
    omega
  · have e1 : cur.1 + 0 - cur.1 = 0 := by ring
    have e2 : cur.2 + 2 - cur.2 = 2 := by ring
    rw [e1, e2]
    have d1 : (0 : Int) / 2 = 0 := by decide
    have d2 : (2 : Int) / 2 = 1 := by decide
    rw [d1, d2]
    omega
  · have e1 : cur.1 + -2 - cur.1 = -2 := by ring
    have e2 : cur.2 + 0 - cur.2 = 0 := by ring
    rw [e1, e2]
    have d1 : (-2 : Int) / 2 = -1 := by decide
    have d2 : (0 : Int) / 2 = 0 := by decide
    rw [d1, d2]
    omega

theorem rbLoop_shape {w h : Int} :
    ∀ (fuel : Nat) (g : Grid) (v : BoolGrid) (stack : List Vec) (s : Int)
      (g2 : Grid) (s2 : Int),
      gridShaped g w h → 0 ≤ s →
      (∀ c ∈ stack, 0 < c.1 ∧ c.1 < w - 1 ∧ 0 < c.2 ∧ c.2 < h - 1) →
      rbLoop w h fuel g v stack s = .ok (g2, s2) →
      gridShaped g2 w h ∧ 0 ≤ s2 := by
  intro fuel
  induction fuel with
  | zero =>
    intro g v stack s g2 s2 _ _ _ hrun
    cases stack with
    | nil => cases hrun
    | cons cur rest => cases hrun
  | succ fuel ih =>
    intro g v stack s g2 s2 hsh hs hstack hrun
    cases stack with
    | nil =>
      have hred : rbLoop w h (fuel + 1) g v [] s = .ok (g, s) := rfl
      rw [hred] at hrun
      simp only [Except.ok.injEq, Prod.mk.injEq] at hrun
      obtain ⟨rfl, rfl⟩ := hrun
      exact ⟨hsh, hs⟩
    | cons cur rest =>
      simp only [rbLoop] at hrun
      by_cases hns : (rbNeighbors w h v cur).length > 0
      · rw [if_pos hns] at hrun
        cases hD : drawIdx s ((rbNeighbors w h v cur).length : Int) with
        | mk i s1 =>
        rw [hD] at hrun
        dsimp only at hrun
        have hsb := drawIdx_bounds (s := s)
          (n := ((rbNeighbors w h v cur).length : Int)) hs (by omega)
        rw [hD] at hsb
        dsimp only at hsb
        have hs1 : 0 ≤ s1 := by
          rw [hsb.2.2]
          exact (lcgNext_bounds s hs).1
        obtain ⟨next, hnext, hrun⟩ := exBind_ok_iff.mp hrun
        obtain ⟨g1, hw1, hrun⟩ := exBind_ok_iff.mp hrun
        obtain ⟨g1b, hw2, hrun⟩ := exBind_ok_iff.mp hrun
        have hnmem := indexList_mem hnext
        have hcur := hstack cur (List.mem_cons_self cur rest)
        have hwb := rbWall_bounds hcur hnmem
        have hnb := (rbNeighbors_mem hnmem).1
        have hsh1 : gridShaped g1 w h := by
          refine writeCell_shape_inv hsh (by omega) (by omega) hw1
        have hsh1b : gridShaped g1b w h := by
          refine writeCell_shape_inv hsh1 (by omega) (by omega) hw2
        refine ih g1b _ _ s1 g2 s2 hsh1b hs1 ?_ hrun
        intro c hc
        rcases List.mem_cons.mp hc with rfl | hc2
        · exact hnb
        · exact hstack c hc2
      · rw [if_neg hns] at hrun
        exact ih g v rest s g2 s2 hsh hs
          (fun c hc => hstack c (List.mem_cons_of_mem cur hc)) hrun

theorem generateRecursiveBacktracking_shape {opts : MazeGenerationOptions} {s : Int}
    {g2 : Grid} {s2 : Int}
    (hs : 0 ≤ s)
    (hmin : 1 ≤ orFalsy opts.minRoomSize 3)
    (hminmax : orFalsy opts.minRoomSize 3 ≤ orFalsy opts.maxRoomSize 7)
    (hwB : orFalsy opts.maxRoomSize 7 + 4 ≤ opts.width)
    (hhB : orFalsy opts.maxRoomSize 7 + 4 ≤ opts.height)
    (hrun : generateRecursiveBacktracking opts s = .ok (g2, s2)) :
    gridShaped g2 opts.width opts.height ∧ 0 ≤ s2 := by
  unfold generateRecursiveBacktracking at hrun
  dsimp only at hrun
  obtain ⟨g1, hw1, hrun⟩ := exBind_ok_iff.mp hrun
  obtain ⟨⟨gg, s1⟩, hrb, hrun⟩ := exBind_ok_iff.mp hrun
  dsimp only at hrun
  have hsh0 : gridShaped (initGrid opts.width opts.height Tile.wall)
      opts.width opts.height := initGrid_shaped (by omega) (by omega) _
  have hsh1 : gridShaped g1 opts.width opts.height :=
    writeCell_shape_inv hsh0 (by omega) (by omega) hw1
  obtain ⟨hsh2, hs1⟩ := rbLoop_shape _ g1 _ _ s gg s1 hsh1 hs
    (by
      intro c hc
      rw [List.mem_singleton.mp hc]
      refine ⟨by omega, by omega, by omega, by omega⟩) hrb
  obtain ⟨g3, s3, hok, hsh3, hs3⟩ := addRandomRooms_ok gg opts.width opts.height
    (orFalsy opts.minRoomSize 3) (orFalsy opts.maxRoomSize 7)
    (orFalsy opts.roomCount 3) s1 hsh2 hmin hminmax (by omega) (by omega) hs1
  rw [hok] at hrun
  simp only [Except.ok.injEq, Prod.mk.injEq] at hrun
  obtain ⟨rfl, rfl⟩ := hrun
  exact ⟨hsh3, hs3⟩





theorem caRowFold_spec (density : ℚ) :
    ∀ (l : List Int) (cells : List Tile) (s0 : Int), 0 ≤ s0 →
      ((l.foldl (fun st2 _x =>
          let (cells, sc) := st2
          let (isWall, sc1) := drawLT sc density
          (cells ++ [if isWall then Tile.wall else Tile.floor], sc1)) (cells, s0)).1.length
        = cells.length + l.length) ∧
      0 ≤ (l.foldl (fun st2 _x =>
          let (cells, sc) := st2
          let (isWall, sc1) := drawLT sc density
          (cells ++ [if isWall then Tile.wall else Tile.floor], sc1)) (cells, s0)).2 := by
  intro l
  induction l with
  | nil =>
    intro cells s0 hs0
    exact ⟨by simp, hs0⟩
  | cons x xs ih =>
    intro cells s0 hs0
    rw [List.foldl_cons]
    dsimp only
    obtain ⟨ih1, ih2⟩ := ih (cells ++ [if (drawLT s0 density).1 then Tile.wall else Tile.floor])
      ((drawLT s0 density).2) (by
        have he : (drawLT s0 density).2 = lcgNext s0 := rfl
        rw [he]
        exact (lcgNext_bounds s0 hs0).1)
    dsimp only at ih1 ih2
    refine ⟨?_, ih2⟩
    rw [ih1, List.length_append, List.length_singleton, List.length_cons]
    omega

theorem caOuterFold_spec (w : Int) (density : ℚ) :
    ∀ (l : List Int) (rows : List Row) (s0 : Int), 0 ≤ s0 →
      (∀ r ∈ rows, r.length = w.toNat) →
      ((l.foldl (fun st _y =>
          let (rows, s0) := st
          let (row, s1) := (intRange 0 w).foldl (fun st2 _x =>
            let (cells, sc) := st2
            let (isWall, sc1) := drawLT sc density
            (cells ++ [if isWall then Tile.wall else Tile.floor], sc1)) ([], s0)
          (rows ++ [row], s1)) (rows, s0)).1.length = rows.length + l.length) ∧
      (∀ r ∈ (l.foldl (fun st _y =>
          let (rows, s0) := st
          let (row, s1) := (intRange 0 w).foldl (fun st2 _x =>
            let (cells, sc) := st2
            let (isWall, sc1) := drawLT sc density
            (cells ++ [if isWall then Tile.wall else Tile.floor], sc1)) ([], s0)
          (rows ++ [row], s1)) (rows, s0)).1, r.length = w.toNat) ∧
      0 ≤ (l.foldl (fun st _y =>
          let (rows, s0) := st
          let (row, s1) := (intRange 0 w).foldl (fun st2 _x =>
            let (cells, sc) := st2
            let (isWall, sc1) := drawLT sc density
            (cells ++ [if isWall then Tile.wall else Tile.floor], sc1)) ([], s0)
          (rows ++ [row], s1)) (rows, s0)).2 := by
  intro l
  induction l with
  | nil =>
    intro rows s0 hs0 hrows
    exact ⟨by simp, hrows, hs0⟩
  | cons x xs ih =>
    intro rows s0 hs0 hrows
    rw [List.foldl_cons]
    dsimp only
    cases hI : (intRange 0 w).foldl (fun st2 _x =>
        let (cells, sc) := st2
        let (isWall, sc1) := drawLT sc density
        (cells ++ [if isWall then Tile.wall else Tile.floor], sc1)) ([], s0) with
    | mk row s1 =>
    have hinner := caRowFold_spec density (intRange 0 w) [] s0 hs0
    rw [hI] at hinner
    dsimp only at hinner
    obtain ⟨ih1, ih2, ih3⟩ := ih (rows ++ [row]) s1 hinner.2 (by
      intro r hr
      rcases List.mem_append.mp hr with h1 | h2
      · exact hrows r h1
      · rw [List.mem_singleton.mp h2]
        rw [hinner.1]
        simp only [List.length_nil, intRange_length, Nat.zero_add]
        omega)
    refine ⟨?_, ih2, ih3⟩
    rw [ih1, List.length_append, List.length_singleton, List.length_cons]
    omega

/-- The random initial grid of the cellular-automata strategy is
rectangular and leaves the rng state nonnegative. -/
theorem caInit_shape {w h : Int} (density : ℚ) {s : Int} (hs : 0 ≤ s)
    (hw : 0 ≤ w) (hh : 0 ≤ h) :
    gridShaped (caInit w h density s).1 w h ∧ 0 ≤ (caInit w h density s).2 := by
  unfold caInit
  obtain ⟨h1, h2, h3⟩ := caOuterFold_spec w density (intRange 0 h) [] s hs
    (fun r hr => absurd hr (List.not_mem_nil r))
  refine ⟨⟨?_, ?_⟩, h3⟩
  · rw [h1]
    simp only [List.length_nil, intRange_length, Nat.zero_add]
    omega
  · intro r hr
    rw [h2 r hr]
    omega

/-- One synchronous cellular-automata generation is rectangular. -/
theorem applyCA_shape (g : Grid) {w h : Int} (hw : 0 ≤ w) (hh : 0 ≤ h) :
    gridShaped (applyCellularAutomataRules g w h) w h := by
  unfold applyCellularAutomataRules
  constructor
  · rw [List.length_map, intRange_length]
    omega
  · intro r hr
    rw [List.mem_map] at hr
    obtain ⟨y, _, rfl⟩ := hr
    rw [List.length_map, intRange_length]
    omega

theorem floodFillLoop_bounds {g : Grid} {w h : Int} :
    ∀ (fuel : Nat) (visited : BoolGrid) (region stack : List Vec)
      (v2 : BoolGrid) (reg2 : List Vec),
      (∀ c ∈ region, inBounds w h c) →
      floodFillLoop g w h fuel visited region stack = .ok (v2, reg2) →
      ∀ c ∈ reg2, inBounds w h c := by
  intro fuel
  induction fuel with
  | zero =>
    intro visited region stack v2 reg2 _ hrun
    cases hrun
  | succ fuel ih =>
    intro visited region stack v2 reg2 hreg hrun
    cases stack with
    | nil =>
      have hred : floodFillLoop g w h (fuel + 1) visited region [] =
          .ok (visited, region.reverse) := rfl
      rw [hred] at hrun
      simp only [Except.ok.injEq, Prod.mk.injEq] at hrun
      obtain ⟨rfl, rfl⟩ := hrun
      intro c hc
      exact hreg c (List.mem_reverse.mp hc)
    | cons p rest =>
      obtain ⟨x, y⟩ := p
      simp only [floodFillLoop] at hrun
      split at hrun
      · exact ih visited region rest v2 reg2 hreg hrun
      · rename_i hcond
        push_neg at hcond
        refine ih _ ((x, y) :: region) _ v2 reg2 ?_ hrun
        intro c hc
        rcases List.mem_cons.mp hc with rfl | hc2
        · exact ⟨by omega, by omega, by omega, by omega⟩
        · exact hreg c hc2

theorem closestPair_mem {r1 r2 : List Vec} {p q : Vec}
    (h : closestPair r1 r2 = some (p, q)) : p ∈ r1 ∧ q ∈ r2 := by
  unfold closestPair at h
  rw [Option.map_eq_some'] at h
  obtain ⟨t, ht, hpq⟩ := h
  have hinv : ∀ acc, (∀ u : Vec × Vec × Nat, acc = some u → u.1 ∈ r1 ∧ u.2.1 ∈ r2) →
      ∀ u : Vec × Vec × Nat,
        (r1.foldl (fun acc p1 => r2.foldl (fun acc2 p2 =>
          let d := (p1.1 - p2.1).natAbs + (p1.2 - p2.2).natAbs
          match acc2 with
          | none => some (p1, p2, d)
          | some (q1, q2, bd) => if d < bd then some (p1, p2, d) else some (q1, q2, bd))
          acc) acc) = some u → u.1 ∈ r1 ∧ u.2.1 ∈ r2 := by
    intro acc hacc
    apply foldl_preserve_mem
      (fun acc => ∀ u : Vec × Vec × Nat, acc = some u → u.1 ∈ r1 ∧ u.2.1 ∈ r2)
      _ r1 ?_ acc hacc
    intro acc2 p1 hp1 hacc2
    apply foldl_preserve_mem
      (fun acc => ∀ u : Vec × Vec × Nat, acc = some u → u.1 ∈ r1 ∧ u.2.1 ∈ r2)
      _ r2 ?_ acc2 hacc2
    intro acc3 p2 hp2 hacc3
    dsimp only
    cases acc3 with
    | none =>
      intro u hu
      cases hu
      exact ⟨hp1, hp2⟩
    | some t3 =>
      obtain ⟨q1, q2, bd⟩ := t3
      intro u hu
      dsimp only at hu
      split at hu
      · cases hu
        exact ⟨hp1, hp2⟩
      · cases hu
        exact hacc3 (q1, q2, bd) rfl
  have := hinv none (fun u hu => by cases hu) t ht
  have hp' : p = t.1 := (congrArg Prod.fst hpq).symm
  have hq' : q = t.2.1 := (congrArg Prod.snd hpq).symm
  rw [hp', hq']
  exact this

theorem carvePath_bounds {w h : Int} {p q : Vec}
    (hp : inBounds w h p) (hq : inBounds w h q) :
    ∀ c ∈ carvePath p q, inBounds w h c := by
  intro c hc
  obtain ⟨hp1, hp2, hp3, hp4⟩ := hp
  obtain ⟨hq1, hq2, hq3, hq4⟩ := hq
  unfold carvePath at hc
  dsimp only at hc
  rw [List.mem_append, List.mem_append] at hc
  rcases hc with (hc | hc) | hc
  · rw [List.mem_map] at hc
    obtain ⟨i, hi, rfl⟩ := hc
    rw [List.mem_range] at hi
    by_cases hlt : p.1 < q.1
    · rw [if_pos hlt]
      simp only [Int.ofNat_eq_coe]
      exact ⟨by omega, by omega, by omega, by omega⟩
    · rw [if_neg hlt]
      simp only [Int.ofNat_eq_coe]
      exact ⟨by omega, by omega, by omega, by omega⟩
  · rw [List.mem_map] at hc
    obtain ⟨j, hj, rfl⟩ := hc
    rw [List.mem_range] at hj
    by_cases hlt : p.2 < q.2
    · rw [if_pos hlt]
      simp only [Int.ofNat_eq_coe]
      exact ⟨by omega, by omega, by omega, by omega⟩
    · rw [if_neg hlt]
      simp only [Int.ofNat_eq_coe]
      exact ⟨by omega, by omega, by omega, by omega⟩
  · rw [List.mem_singleton.mp hc]
    exact ⟨hq1, hq2, hq3, hq4⟩

theorem carveConnection_shape {g g2 : Grid} {w h : Int} {p q : Vec}
    (hsh : gridShaped g w h) (hp : inBounds w h p) (hq : inBounds w h q)
    (hrun : carveConnection g p q = .ok g2) : gridShaped g2 w h := by
  unfold carveConnection at hrun
  refine foldlM_invariant (fun gg => gridShaped gg w h) _ (carvePath p q) ?_ g g2 hsh hrun
  intro acc c hc hacc b2 hb2
  have hcb := carvePath_bounds hp hq c hc
  exact writeCell_shape_inv hacc hcb.1 hcb.2.1 hb2

theorem connectRegions_shape {g g2 : Grid} {w h : Int} {r1 r2 : List Vec}
    (hsh : gridShaped g w h)
    (hr1 : ∀ c ∈ r1, inBounds w h c) (hr2 : ∀ c ∈ r2, inBounds w h c)
    (hrun : connectRegions g r1 r2 = .ok g2) : gridShaped g2 w h := by
  unfold connectRegions at hrun
  cases hcp : closestPair r1 r2 with
  | none =>
    rw [hcp] at hrun
    cases hrun
    exact hsh
  | some pq =>
    obtain ⟨p, q⟩ := pq
    rw [hcp] at hrun
    have hmem := closestPair_mem hcp
    exact carveConnection_shape hsh (hr1 p hmem.1) (hr2 q hmem.2) hrun

/-- On success, connectivity repair preserves the rectangular shape. -/
theorem ensureConnectivity_shape {g g2 : Grid} {w h : Int}
    (hsh : gridShaped g w h) (hrun : ensureConnectivity g = .ok g2) :
    gridShaped g2 w h := by
  unfold ensureConnectivity at hrun
  cases g with
  | nil => cases hrun
  | cons r0 grest =>
    dsimp only at hrun
    have hw0 : ((r0.length : Nat) : Int) = w := hsh.2 r0 (List.mem_cons_self r0 grest)
    have hh0 : (((r0 :: grest).length : Nat) : Int) = h := hsh.1
    rw [hw0, hh0] at hrun
    obtain ⟨⟨v, regions⟩, hfold, hrun⟩ := exBind_ok_iff.mp hrun
    dsimp only at hrun
    have hregs : ∀ r ∈ regions, ∀ c ∈ r, inBounds w h c := by
      have hinv := foldlM_invariant
        (fun st : BoolGrid × List (List Vec) => ∀ r ∈ st.2, ∀ c ∈ r, inBounds w h c)
        _ (intRange 0 h) ?_ (mkBoolGrid w h, ([] : List (List Vec))) (v, regions)
        (fun r hr => absurd hr (List.not_mem_nil r)) hfold
      · exact hinv
      · intro acc y hy hacc b2 hstep
        refine foldlM_invariant
          (fun st : BoolGrid × List (List Vec) => ∀ r ∈ st.2, ∀ c ∈ r, inBounds w h c)
          _ (intRange 0 w) ?_ acc b2 hacc hstep
        intro acc2 x hx hacc2 b3 hstep2
        split at hstep2
        · obtain ⟨⟨v1, region⟩, hff, hpure⟩ := exBind_ok_iff.mp hstep2
          dsimp only at hpure
          cases hpure
          intro r hr
          dsimp only at hr
          have hregion : ∀ c ∈ region, inBounds w h c := by
            unfold floodFill at hff
            exact floodFillLoop_bounds _ _ _ _ _ _
              (fun c hc => absurd hc (List.not_mem_nil c)) hff
          split at hr
          · rcases List.mem_append.mp hr with h1 | h2
            · exact hacc2 r h1
            · rw [List.mem_singleton.mp h2]
              exact hregion
          · exact hacc2 r hr
        · cases hstep2
          exact hacc2
    cases regions with
    | nil =>
      cases hrun
      exact hsh
    | cons first others =>
      refine foldlM_invariant (fun gg => gridShaped gg w h) _ others ?_ _ g2 hsh hrun
      intro acc r hr hacc b2 hstep
      exact connectRegions_shape hacc (hregs first (List.mem_cons_self first others))
        (hregs r (List.mem_cons_of_mem first hr)) hstep

/-- On success, the cellular-automata strategy returns a rectangular grid and
a nonnegative rng state. -/
theorem generateCellularAutomata_shape {opts : MazeGenerationOptions} {s : Int}
    {g2 : Grid} {s2 : Int} (hs : 0 ≤ s)
    (hw : 0 ≤ opts.width) (hh : 0 ≤ opts.height)
    (hrun : generateCellularAutomata opts s = .ok (g2, s2)) :
    gridShaped g2 opts.width opts.height ∧ 0 ≤ s2 := by
  unfold generateCellularAutomata at hrun
  dsimp only at hrun
  cases hCI : caInit opts.width opts.height
      (orUndef opts.density (mkRat 45 100)) s with
  | mk g0 s1 =>
  rw [hCI] at hrun
  dsimp only at hrun
  have hci := caInit_shape (orUndef opts.density (mkRat 45 100)) hs hw hh
  rw [hCI] at hci
  dsimp only at hci
  have hg1 : gridShaped ((List.range (orUndef opts.iterations 5).toNat).foldl
      (fun gg _ => applyCellularAutomataRules gg opts.width opts.height) g0)
      opts.width opts.height := by
    apply foldl_preserve (fun gg => gridShaped gg opts.width opts.height) _ ?_ _ _ hci.1
    intro acc _ _
    exact applyCA_shape acc hw hh
  obtain ⟨g2b, hec, hpure⟩ := exBind_ok_iff.mp hrun
  cases hpure
  exact ⟨ensureConnectivity_shape hg1 hec, hci.2⟩





theorem stepRange_mem2 {a b p : Int} (hm : p ∈ stepRange a b 2) : a ≤ p ∧ p < b := by
  unfold stepRange at hm
  rw [if_neg (by norm_num)] at hm
  rw [List.mem_map] at hm
  obtain ⟨i, hi, rfl⟩ := hm
  rw [List.mem_range] at hi
  rw [Int.fdiv_eq_ediv _ (by norm_num)] at hi
  simp only [Int.ofNat_eq_coe]
  omega

/-- On success, the binary-tree strategy returns a rectangular grid. -/
theorem generateBinaryTree_shape {opts : MazeGenerationOptions} {s : Int}
    {g2 : Grid} {s2 : Int} (hw : 0 ≤ opts.width) (hh : 0 ≤ opts.height)
    (hrun : generateBinaryTree opts s = .ok (g2, s2)) :
    gridShaped g2 opts.width opts.height := by
  unfold generateBinaryTree at hrun
  dsimp only at hrun
  have hsh0 : gridShaped (initGrid opts.width opts.height Tile.wall)
      opts.width opts.height := initGrid_shaped hw hh _
  have hmain := foldlM_invariant
    (fun st : Grid × Int => gridShaped st.1 opts.width opts.height)
    _ (stepRange 1 (opts.height - 1) 2) ?_
    (initGrid opts.width opts.height Tile.wall, s) (g2, s2) hsh0 hrun
  · exact hmain
  · intro acc y hy hacc b2 hstep
    refine foldlM_invariant
      (fun st : Grid × Int => gridShaped st.1 opts.width opts.height)
      _ (stepRange 1 (opts.width - 1) 2) ?_ acc b2 hacc hstep
    intro acc2 x hx hacc2 b3 hstep2
    obtain ⟨gA, sA⟩ := acc2
    have hxb := stepRange_mem2 hx
    dsimp only at hstep2
    obtain ⟨g1, hw1, hstep2⟩ := exBind_ok_iff.mp hstep2
    have hsh1 : gridShaped g1 opts.width opts.height :=
      writeCell_shape_inv hacc2 (by omega) (by omega) hw1
    by_cases hy1 : y > (1 : Int)
    · rw [if_pos hy1] at hstep2
      by_cases hx1 : x > (1 : Int)
      · rw [if_pos hx1] at hstep2
        rw [if_pos (by decide :
          (([((0 : Int), (-1 : Int))] ++ [((-1 : Int), (0 : Int))]).length > 0))] at hstep2
        cases hD : drawIdx sA
            (([((0 : Int), (-1 : Int))] ++ [((-1 : Int), (0 : Int))]).length : Int) with
        | mk i s1 =>
        rw [hD] at hstep2
        dsimp only at hstep2
        obtain ⟨d, hd, hstep2⟩ := exBind_ok_iff.mp hstep2
        obtain ⟨gB, hw2, hstep2⟩ := exBind_ok_iff.mp hstep2
        cases hstep2
        rcases List.mem_append.mp (indexList_mem hd) with h1 | h1
        · rw [List.mem_singleton.mp h1] at hw2
          exact writeCell_shape_inv hsh1 (by omega) (by omega) hw2
        · rw [List.mem_singleton.mp h1] at hw2
          exact writeCell_shape_inv hsh1 (by omega) (by omega) hw2
      · rw [if_neg hx1] at hstep2
        rw [if_pos (by decide :
          (([((0 : Int), (-1 : Int))] ++ ([] : List Vec)).length > 0))] at hstep2
        cases hD : drawIdx sA
            (([((0 : Int), (-1 : Int))] ++ ([] : List Vec)).length : Int) with
        | mk i s1 =>
        rw [hD] at hstep2
        dsimp only at hstep2
        obtain ⟨d, hd, hstep2⟩ := exBind_ok_iff.mp hstep2
        obtain ⟨gB, hw2, hstep2⟩ := exBind_ok_iff.mp hstep2
        cases hstep2
        rcases List.mem_append.mp (indexList_mem hd) with h1 | h1
        · rw [List.mem_singleton.mp h1] at hw2
          exact writeCell_shape_inv hsh1 (by omega) (by omega) hw2
        · cases h1
    · rw [if_neg hy1] at hstep2
      by_cases hx1 : x > (1 : Int)
      · rw [if_pos hx1] at hstep2
        rw [if_pos (by decide :
          ((([] : List Vec) ++ [((-1 : Int), (0 : Int))]).length > 0))] at hstep2
        cases hD : drawIdx sA
            ((([] : List Vec) ++ [((-1 : Int), (0 : Int))]).length : Int) with
        | mk i s1 =>
        rw [hD] at hstep2
        dsimp only at hstep2
        obtain ⟨d, hd, hstep2⟩ := exBind_ok_iff.mp hstep2
        obtain ⟨gB, hw2, hstep2⟩ := exBind_ok_iff.mp hstep2
        cases hstep2
        rcases List.mem_append.mp (indexList_mem hd) with h1 | h1
        · cases h1
        · rw [List.mem_singleton.mp h1] at hw2
          exact writeCell_shape_inv hsh1 (by omega) (by omega) hw2
      · rw [if_neg hx1] at hstep2
        rw [if_neg (by decide :
          ¬ ((([] : List Vec) ++ ([] : List Vec)).length > 0))] at hstep2
        cases hstep2
        exact hsh1

/-- On success, one smoothing round preserves the rectangular shape. -/
theorem smoothCaves_shape {g g2 : Grid} {w h : Int}
    (hsh : gridShaped g w h) (hrun : smoothCaves g = .ok g2) :
    gridShaped g2 w h := by
  unfold smoothCaves at hrun
  cases g with
  | nil => cases hrun
  | cons r0 grest =>
    dsimp only at hrun
    have hw0 : ((r0.length : Nat) : Int) = w := hsh.2 r0 (List.mem_cons_self r0 grest)
    have hh0 : (((r0 :: grest).length : Nat) : Int) = h := hsh.1
    rw [hw0, hh0] at hrun
    cases hrun
    constructor
    · rw [List.length_map, intRange_length]
      have := hsh.1
      omega
    · intro r hr
      rw [List.mem_map] at hr
      obtain ⟨y, _, rfl⟩ := hr
      rw [List.length_map, intRange_length]
      have := hsh.2 r0 (List.mem_cons_self r0 grest)
      omega

/-- On success, the Perlin-cave strategy returns a rectangular grid. -/
theorem generatePerlinCaves_shape {noiseC : Int → Int → ℚ}
    {opts : MazeGenerationOptions} {s : Int} {g2 : Grid} {s2 : Int}
    (hw : 0 ≤ opts.width) (hh : 0 ≤ opts.height)
    (hrun : generatePerlinCaves noiseC opts s = .ok (g2, s2)) :
    gridShaped g2 opts.width opts.height := by
  unfold generatePerlinCaves at hrun
  dsimp only at hrun
  have hsh0 : gridShaped ((intRange 0 opts.height).map (fun y =>
      (intRange 0 opts.width).map (fun x =>
        if noiseC x y > orUndef opts.density (mkRat 2 5) then Tile.wall else Tile.floor)))
      opts.width opts.height := by
    constructor
    · rw [List.length_map, intRange_length]
      omega
    · intro r hr
      rw [List.mem_map] at hr
      obtain ⟨y, _, rfl⟩ := hr
      rw [List.length_map, intRange_length]
      omega
  obtain ⟨gA, hA, hrun⟩ := exBind_ok_iff.mp hrun
  obtain ⟨gB, hB, hrun⟩ := exBind_ok_iff.mp hrun
  obtain ⟨gC, hC, hrun⟩ := exBind_ok_iff.mp hrun
  cases hrun
  exact smoothCaves_shape (smoothCaves_shape (smoothCaves_shape hsh0 hA) hB) hC





/-- On success, the dispatched carver returns a rectangular grid (for
recursive backtracking under the room-size bound). -/
theorem carveStage_shape {noiseC : Int → Int → ℚ} {opts : MazeGenerationOptions}
    {s : Int} {g2 : Grid} {s2 : Int}
    (hs : 0 ≤ s) (hw : 1 ≤ opts.width) (hh : 1 ≤ opts.height)
    (hrb : opts.algorithm = .recursiveBacktracking →
      1 ≤ orFalsy opts.minRoomSize 3 ∧
      orFalsy opts.minRoomSize 3 ≤ orFalsy opts.maxRoomSize 7 ∧
      orFalsy opts.maxRoomSize 7 + 4 ≤ opts.width ∧
      orFalsy opts.maxRoomSize 7 + 4 ≤ opts.height)
    (hrun : carveStage noiseC opts s = .ok (g2, s2)) :
    gridShaped g2 opts.width opts.height := by
  unfold carveStage at hrun
  cases halg : opts.algorithm with
  | recursiveBacktracking =>
    rw [halg] at hrun
    obtain ⟨h1, h2, h3, h4⟩ := hrb halg
    exact (generateRecursiveBacktracking_shape hs h1 h2 h3 h4 hrun).1
  | cellularAutomata =>
    rw [halg] at hrun
    exact (generateCellularAutomata_shape hs (by omega) (by omega) hrun).1
  | binaryTree =>
    rw [halg] at hrun
    exact generateBinaryTree_shape (by omega) (by omega) hrun
  | perlinCaves =>
    rw [halg] at hrun
    exact generatePerlinCaves_shape (by omega) (by omega) hrun

/-- On success, the layout entering placement is rectangular with a fully
walled outer ring. -/
theorem layoutStage_props {noiseC : Int → Int → ℚ} {opts : MazeGenerationOptions}
    {s : Int} {l2 : Grid} {s1 : Int}
    (hs : 0 ≤ s) (hw : 1 ≤ opts.width) (hh : 1 ≤ opts.height)
    (hrb : opts.algorithm = .recursiveBacktracking →
      1 ≤ orFalsy opts.minRoomSize 3 ∧
      orFalsy opts.minRoomSize 3 ≤ orFalsy opts.maxRoomSize 7 ∧
      orFalsy opts.maxRoomSize 7 + 4 ≤ opts.width ∧
      orFalsy opts.maxRoomSize 7 + 4 ≤ opts.height)
    (hrun : layoutStage noiseC opts s = .ok (l2, s1)) :
    gridShaped l2 opts.width opts.height ∧ borderWalls l2 opts.width opts.height := by
  unfold layoutStage at hrun
  obtain ⟨⟨g, sC⟩, hcarve, hrun⟩ := exBind_ok_iff.mp hrun
  dsimp only at hrun
  obtain ⟨gB, hebw, hrun⟩ := exBind_ok_iff.mp hrun
  cases hrun
  have hsh := carveStage_shape hs hw hh hrb hcarve
  obtain ⟨gC, hok, hsh2, hbord⟩ := ensureBoundaryWalls_ok hsh hw hh
  rw [hok] at hebw
  cases hebw
  exact ⟨hsh2, hbord⟩

/-- Every candidate of the primary door scan lies strictly inside its row and
strictly inside the row range. -/
theorem doorScan_pos (g : Grid) : ∀ p ∈ doorScan g,
    1 ≤ p.1 ∧ p.1 ≤ rowLen g p.2 - 2 ∧ 1 ≤ p.2 ∧ p.2 ≤ (g.length : Int) - 2 := by
  intro p hp
  unfold doorScan at hp
  dsimp only at hp
  refine foldl_preserve_mem (fun acc => ∀ q ∈ acc,
    1 ≤ q.1 ∧ q.1 ≤ rowLen g q.2 - 2 ∧ 1 ≤ q.2 ∧ q.2 ≤ (g.length : Int) - 2)
    _ _ ?_ _ ?_ p hp
  · intro acc y hy hacc
    have hyb := intRange_mem.mp hy
    intro q hq
    refine foldl_preserve_mem (fun acc => ∀ q ∈ acc,
      1 ≤ q.1 ∧ q.1 ≤ rowLen g q.2 - 2 ∧ 1 ≤ q.2 ∧ q.2 ≤ (g.length : Int) - 2)
      _ _ ?_ _ hacc q hq
    intro acc2 x hx hacc2
    have hxb := intRange_mem.mp hx
    split
    · split
      · intro r hr
        rcases List.mem_append.mp hr with h1 | h2
        · exact hacc2 r h1
        · rw [List.mem_singleton.mp h2]
          dsimp only
          exact ⟨by omega, by omega, by omega, by omega⟩
      · exact hacc2
    · exact hacc2
  · intro q hq
    cases hq

/-- Every element the relaxed fallback returns is either from the original
pool or lies at least two cells from every edge. -/
theorem doorFallback_pos (g : Grid) (pool : List Vec) : ∀ p ∈ doorFallback g pool,
    p ∈ pool ∨ (2 ≤ p.1 ∧ p.1 ≤ rowLen g p.2 - 3 ∧ 2 ≤ p.2 ∧
      p.2 ≤ (g.length : Int) - 3) := by
  intro p hp
  unfold doorFallback at hp
  dsimp only at hp
  refine foldl_preserve_mem (fun st : List Vec × List Vec => ∀ q ∈ st.1,
    q ∈ pool ∨ (2 ≤ q.1 ∧ q.1 ≤ rowLen g q.2 - 3 ∧ 2 ≤ q.2 ∧
      q.2 ≤ (g.length : Int) - 3))
    _ _ ?_ _ ?_ p hp
  · intro acc y hy hacc
    have hyb := intRange_mem.mp hy
    intro q hq
    refine foldl_preserve_mem (fun st : List Vec × List Vec => ∀ q ∈ st.1,
      q ∈ pool ∨ (2 ≤ q.1 ∧ q.1 ≤ rowLen g q.2 - 3 ∧ 2 ≤ q.2 ∧
        q.2 ≤ (g.length : Int) - 3))
      _ _ ?_ _ hacc q hq
    intro acc2 x hx hacc2
    have hxb := intRange_mem.mp hx
    obtain ⟨pl, used⟩ := acc2
    dsimp only
    split
    · intro r hr
      rcases List.mem_append.mp hr with h1 | h2
      · exact hacc2 r h1
      · rw [List.mem_singleton.mp h2]
        dsimp only
        exact Or.inr ⟨by omega, by omega, by omega, by omega⟩
    · exact hacc2
  · intro q hq
    exact Or.inl hq

/-- Selected doors come from the candidate pool. -/
theorem doorSelect_mem {count : Nat} {pool : List Vec} {s s2 : Int}
    {doors : List Vec} (h : doorSelect count pool s = .ok (doors, s2)) :
    ∀ d ∈ doors, d ∈ pool := by
  unfold doorSelect at h
  obtain ⟨st, hfold, hpure⟩ := exBind_ok_iff.mp h
  have hinv := foldlM_invariant
    (fun st : List Vec × List Vec × Int =>
      (∀ d ∈ st.1, d ∈ pool) ∧ (∀ d ∈ st.2.1, d ∈ pool))
    _ (List.range count) ?_ (([] : List Vec), pool, s) st
    ⟨fun d hd => absurd hd (List.not_mem_nil d), fun d hd => hd⟩ hfold
  · obtain ⟨ds, pl, sf⟩ := st
    dsimp only at hpure
    cases hpure
    exact hinv.1
  · intro acc x hx hacc b2 hstep
    obtain ⟨ds, pl, s0⟩ := acc
    dsimp only at hstep
    split at hstep
    · cases hD : drawIdx s0 (pl.length : Int) with
      | mk i s1 =>
      rw [hD] at hstep
      dsimp only at hstep
      obtain ⟨door, hdoor, hstep⟩ := exBind_ok_iff.mp hstep
      cases hstep
      constructor
      · intro d hd
        rcases List.mem_append.mp hd with h1 | h2
        · exact hacc.1 d h1
        · rw [List.mem_singleton.mp h2]
          exact hacc.2 door (indexList_mem hdoor)
      · intro d hd
        exact hacc.2 d (List.eraseIdx_subset _ _ hd)
    · cases hstep
      exact hacc

/-- On a rectangular grid, every selected door position is interior. -/
theorem generateDoorPositions_interior {g : Grid} {w h : Int} {count : Nat}
    {s : Int} {doors : List Vec} {s2 : Int} (hsh : gridShaped g w h)
    (hrun : generateDoorPositions g count s = .ok (doors, s2)) :
    ∀ d ∈ doors, 1 ≤ d.1 ∧ d.1 ≤ w - 2 ∧ 1 ≤ d.2 ∧ d.2 ≤ h - 2 := by
  unfold generateDoorPositions at hrun
  dsimp only at hrun
  intro d hd
  have hdm := doorSelect_mem hrun d hd
  have hh0 : ((g.length : Nat) : Int) = h := hsh.1
  have hrl : ∀ y : Int, 0 ≤ y → y < h → rowLen g y = w :=
    fun y hy0 hyh => rowLen_of_shaped hsh hy0 hyh
  split at hdm
  · rcases doorFallback_pos g (doorScan g) d hdm with h1 | h1
    · have hq := doorScan_pos g d h1
      have hrw : rowLen g d.2 = w := hrl d.2 (by omega) (by omega)
      rw [hrw] at hq
      exact ⟨by omega, by omega, by omega, by omega⟩
    · have hrw : rowLen g d.2 = w := hrl d.2 (by omega) (by omega)
      rw [hrw] at h1
      exact ⟨by omega, by omega, by omega, by omega⟩
  · have hq := doorScan_pos g d hdm
    have hrw : rowLen g d.2 = w := hrl d.2 (by omega) (by omega)
    rw [hrw] at hq
    exact ⟨by omega, by omega, by omega, by omega⟩

/-- Baking the door tiles preserves shape and the walled outer ring, because
all door positions are interior. -/
theorem placeSpecialTiles_border {g g2 : Grid} {w h : Int}
    {spawns keys doors : List Vec} {exitP : Vec}
    (hsh : gridShaped g w h) (hbord : borderWalls g w h)
    (hdoors : ∀ d ∈ doors, 1 ≤ d.1 ∧ d.1 ≤ w - 2 ∧ 1 ≤ d.2 ∧ d.2 ≤ h - 2)
    (hrun : placeSpecialTiles g spawns keys doors exitP = .ok g2) :
    gridShaped g2 w h ∧ borderWalls g2 w h := by
  unfold placeSpecialTiles at hrun
  refine foldlM_invariant (fun gg => gridShaped gg w h ∧ borderWalls gg w h)
    _ doors ?_ g g2 ⟨hsh, hbord⟩ hrun
  intro acc d hd hacc b2 hb2
  have hdb := hdoors d hd
  refine ⟨writeCell_shape_inv hacc.1 (by omega) (by omega) hb2, ?_⟩
  intro x y hx0 hxw hy0 hyh hb
  rw [writeCell_eq hb2]
  rw [cellAt_setCellQ_ne Tile.door (by
    intro heq
    have h1 := congrArg Prod.fst heq
    have h2 := congrArg Prod.snd heq
    dsimp only at h1 h2
    rcases hb with rfl | rfl | rfl | rfl
    · omega
    · omega
    · omega
    · omega)]
  exact hacc.2 x y hx0 hxw hy0 hyh hb






/-- C4 (corrected): for positive dimensions and a nonnegative stored seed -
with, for recursive backtracking, the effective room sizes bounded by
min(width, height) - 4 - every successful generateMaze call returns a layout
whose entire outer ring (row 0, row height-1, column 0, column width-1) is
Wall. -/
theorem C4_boundary (noiseC : Int → Int → ℚ) (genSeed now2 : Int)
    (opts : MazeGenerationOptions) (m : MazeData)
    (hw : 1 ≤ opts.width) (hh : 1 ≤ opts.height) (hs : 0 ≤ genSeed)
    (hrb : opts.algorithm = .recursiveBacktracking →
      1 ≤ orFalsy opts.minRoomSize 3 ∧
      orFalsy opts.minRoomSize 3 ≤ orFalsy opts.maxRoomSize 7 ∧
      orFalsy opts.maxRoomSize 7 + 4 ≤ opts.width ∧
      orFalsy opts.maxRoomSize 7 + 4 ≤ opts.height)
    (hgen : generateMaze noiseC genSeed now2 opts = .ok m) :
    ∀ x y : Int, 0 ≤ x → x < opts.width → 0 ≤ y → y < opts.height →
      (x = 0 ∨ x = opts.width - 1 ∨ y = 0 ∨ y = opts.height - 1) →
      cellAt m.layout x y = Tile.wall := by
  unfold generateMaze at hgen
  cases hcore : generateMazeCore noiseC genSeed opts with
  | error e =>
    rw [hcore] at hgen
    cases hgen
  | ok m0 =>
    rw [hcore] at hgen
    simp only [Except.map] at hgen
    cases hgen
    unfold generateMazeCore at hcore
    obtain ⟨⟨l2, s1⟩, hlayout, hcore⟩ := exBind_ok_iff.mp hcore
    dsimp only at hcore
    obtain ⟨⟨spawns, s2s⟩, hspawn, hcore⟩ := exBind_ok_iff.mp hcore
    dsimp only at hcore
    obtain ⟨⟨keys, s3⟩, hkeys, hcore⟩ := exBind_ok_iff.mp hcore
    dsimp only at hcore
    obtain ⟨⟨doors, s4⟩, hdoorsRun, hcore⟩ := exBind_ok_iff.mp hcore
    dsimp only at hcore
    obtain ⟨exitP, hexit, hcore⟩ := exBind_ok_iff.mp hcore
    obtain ⟨l3, hplace, hcore⟩ := exBind_ok_iff.mp hcore
    cases hcore
    obtain ⟨hshl2, hbord⟩ := layoutStage_props hs hw hh hrb hlayout
    have hdint := generateDoorPositions_interior hshl2 hdoorsRun
    obtain ⟨hshl3, hbord3⟩ := placeSpecialTiles_border hshl2 hbord hdint hplace
    intro x y hx0 hxw hy0 hyh hb
    exact hbord3 x y hx0 hxw hy0 hyh hb

/-- Witness for C4_boundary: a concrete 5 by 5 cellular-automata run (seed 3,
density 0.8, no smoothing iterations) succeeds and has a wall at the corner
(0, 0) of its layout. -/
theorem C4_boundary_witness :
    cellAt (exResult (generateMaze zeroNoise 3 9 c4wopts) c4wDefault).layout 0 0
      = Tile.wall :=
  C4_boundary zeroNoise 3 9 c4wopts
    (exResult (generateMaze zeroNoise 3 9 c4wopts) c4wDefault)
    (by decide) (by decide) (by decide)
    (fun halg => absurd halg (by decide))
    (by decide)
    0 0 (by decide) (by decide) (by decide) (by decide) (Or.inl rfl)







theorem exBind_congr {α β : Type} {x : Except JsError α}
    {f g : α → Except JsError β} (h : ∀ a, f a = g a) : (x >>= f) = (x >>= g) := by
  cases x with
  | error e => rw [exBind_err, exBind_err]
  | ok a => rw [exBind_ok, exBind_ok, h a]

theorem ensureConnectivity_scan (g : Grid) : ensureConnectivity g =
    scanRegions g >>= fun regions =>
      match regions with
      | [] => .ok g
      | first :: others => others.foldlM (fun gg r => connectRegions gg first r) g := by
  unfold ensureConnectivity scanRegions
  cases g with
  | nil => rfl
  | cons r0 grest =>
    dsimp only
    rw [bind_assoc]
    apply exBind_congr
    intro st
    obtain ⟨v, regions⟩ := st
    rw [exBind_pure]

theorem cellAt_setCellQ_keep {g : Grid} {x y a b : Int} {t : Tile}
    (ht : t ≠ Tile.undef) (hcell : cellAt g a b = t) :
    cellAt (setCellQ g x y t) a b = t := by
  by_cases heq : (a, b) = (x, y)
  · have hax : a = x := congrArg Prod.fst heq
    have hby : b = y := congrArg Prod.snd heq
    subst hax
    subst hby
    by_cases ha0 : 0 ≤ a
    · by_cases hb0 : 0 ≤ b
      · by_cases hbl : b.toNat < g.length
        · exact cellAt_setCellQ_same t ha0 hb0 hbl
        · have hrow : gridRow g b = none := by
            unfold gridRow
            rw [if_pos hb0]
            exact List.get?_eq_none.mpr (by omega)
          unfold setCellQ
          rw [hrow]
          exact hcell
      · have hrow : gridRow g b = none := by
          unfold gridRow
          rw [if_neg hb0]
        unfold setCellQ
        rw [hrow]
        exact hcell
    · exfalso
      unfold cellAt at hcell
      cases hr : gridRow g b with
      | none =>
        rw [hr] at hcell
        exact ht hcell.symm
      | some r =>
        rw [hr] at hcell
        dsimp only at hcell
        unfold rowGet at hcell
        rw [if_neg ha0] at hcell
        exact ht hcell.symm
  · rw [cellAt_setCellQ_ne t heq]
    exact hcell

theorem neighborList_symm {p q : Vec} (h : q ∈ neighborList p) : p ∈ neighborList q := by
  obtain ⟨px, py⟩ := p
  obtain ⟨qx, qy⟩ := q
  unfold neighborList at h ⊢
  simp only [List.mem_cons, List.not_mem_nil, or_false, Prod.mk.injEq] at h ⊢
  rcases h with ⟨h1, h2⟩ | ⟨h1, h2⟩ | ⟨h1, h2⟩ | ⟨h1, h2⟩
  · exact Or.inr (Or.inl ⟨by omega, by omega⟩)
  · exact Or.inl ⟨by omega, by omega⟩
  · exact Or.inr (Or.inr (Or.inr ⟨by omega, by omega⟩))
  · exact Or.inr (Or.inr (Or.inl ⟨by omega, by omega⟩))

theorem floorAdj_symm {g : Grid} {p q : Vec} (h : floorAdj g p q) : floorAdj g q p :=
  ⟨h.2.1, h.1, neighborList_symm h.2.2⟩

theorem floorReach_symm {g : Grid} {p q : Vec} (h : floorReach g p q) :
    floorReach g q p :=
  Relation.ReflTransGen.symmetric (fun _ _ hadj => floorAdj_symm hadj) h

theorem floorAdj_mono {g g2 : Grid} {p q : Vec}
    (hmono : ∀ x y : Int, cellAt g x y = Tile.floor → cellAt g2 x y = Tile.floor)
    (h : floorAdj g p q) : floorAdj g2 p q :=
  ⟨hmono p.1 p.2 h.1, hmono q.1 q.2 h.2.1, h.2.2⟩

theorem floorReach_mono {g g2 : Grid} {p q : Vec}
    (hmono : ∀ x y : Int, cellAt g x y = Tile.floor → cellAt g2 x y = Tile.floor)
    (h : floorReach g p q) : floorReach g2 p q :=
  Relation.ReflTransGen.mono (fun _ _ hadj => floorAdj_mono hmono hadj) h

theorem reach_horiz (g2 : Grid) (y : Int) :
    ∀ (n : Nat) (x1 x2 : Int), (x2 - x1).natAbs = n →
      (∀ x : Int, min x1 x2 ≤ x → x ≤ max x1 x2 → cellAt g2 x y = Tile.floor) →
      floorReach g2 (x1, y) (x2, y) := by
  intro n
  induction n with
  | zero =>
    intro x1 x2 hn _
    have : x1 = x2 := by omega
    rw [this]
    exact Relation.ReflTransGen.refl
  | succ n ih =>
    intro x1 x2 hn hfl
    rcases lt_or_gt_of_ne (show x1 ≠ x2 by omega) with hlt | hgt
    · refine Relation.ReflTransGen.head (b := (x1 + 1, y)) ?_ ?_
      · refine ⟨hfl x1 (by omega) (by omega), hfl (x1 + 1) (by omega) (by omega), ?_⟩
        unfold neighborList
        exact List.mem_cons_self _ _
      · exact ih (x1 + 1) x2 (by omega) (fun x hx1 hx2 => hfl x (by omega) (by omega))
    · refine Relation.ReflTransGen.head (b := (x1 - 1, y)) ?_ ?_
      · refine ⟨hfl x1 (by omega) (by omega), hfl (x1 - 1) (by omega) (by omega), ?_⟩
        unfold neighborList
        exact List.mem_cons_of_mem _ (List.mem_cons_self _ _)
      · exact ih (x1 - 1) x2 (by omega) (fun x hx1 hx2 => hfl x (by omega) (by omega))

theorem reach_vert (g2 : Grid) (x : Int) :
    ∀ (n : Nat) (y1 y2 : Int), (y2 - y1).natAbs = n →
      (∀ y : Int, min y1 y2 ≤ y → y ≤ max y1 y2 → cellAt g2 x y = Tile.floor) →
      floorReach g2 (x, y1) (x, y2) := by
  intro n
  induction n with
  | zero =>
    intro y1 y2 hn _
    have : y1 = y2 := by omega
    rw [this]
    exact Relation.ReflTransGen.refl
  | succ n ih =>
    intro y1 y2 hn hfl
    rcases lt_or_gt_of_ne (show y1 ≠ y2 by omega) with hlt | hgt
    · refine Relation.ReflTransGen.head (b := (x, y1 + 1)) ?_ ?_
      · refine ⟨hfl y1 (by omega) (by omega), hfl (y1 + 1) (by omega) (by omega), ?_⟩
        unfold neighborList
        exact List.mem_cons_of_mem _ (List.mem_cons_of_mem _ (List.mem_cons_self _ _))
      · exact ih (y1 + 1) y2 (by omega) (fun z hz1 hz2 => hfl z (by omega) (by omega))
    · refine Relation.ReflTransGen.head (b := (x, y1 - 1)) ?_ ?_
      · refine ⟨hfl y1 (by omega) (by omega), hfl (y1 - 1) (by omega) (by omega), ?_⟩
        unfold neighborList
        exact List.mem_cons_of_mem _ (List.mem_cons_of_mem _
          (List.mem_cons_of_mem _ (List.mem_cons_self _ _)))
      · exact ih (y1 - 1) y2 (by omega) (fun z hz1 hz2 => hfl z (by omega) (by omega))





theorem foldlM_establish {α β : Type} (I : β → Prop) (P : α → β → Prop)
    {f : β → α → Except JsError β} :
    ∀ (l : List α),
    (∀ acc a, a ∈ l → I acc → ∀ b, f acc a = .ok b → I b) →
    (∀ acc a, a ∈ l → I acc → ∀ b, f acc a = .ok b → P a b) →
    (∀ acc a b, b ∈ l → P a acc → ∀ b2, f acc b = .ok b2 → P a b2) →
    ∀ init res, I init → l.foldlM f init = .ok res → ∀ a ∈ l, P a res := by
  intro l
  induction l with
  | nil =>
    intro _ _ _ init res _ _ a ha
    exact absurd ha (List.not_mem_nil a)
  | cons x xs ih =>
    intro hI hset hpers init res hinit hrun a ha
    have hc : (x :: xs).foldlM f init = f init x >>= fun b => xs.foldlM f b := rfl
    rw [hc] at hrun
    obtain ⟨b, hfx, hrest⟩ := exBind_ok_iff.mp hrun
    rcases List.mem_cons.mp ha with rfl | hmem
    · exact foldlM_invariant (P a) f xs
        (fun acc z hz hp b2 hb2 => hpers acc a z (List.mem_cons_of_mem _ hz) hp b2 hb2)
        b res (hset init a (List.mem_cons_self a xs) hinit b hfx) hrest
    · exact ih (fun acc z hz h2 => hI acc z (List.mem_cons_of_mem x hz) h2)
        (fun acc z hz h2 => hset acc z (List.mem_cons_of_mem x hz) h2)
        (fun acc z c hc2 h2 => hpers acc z c (List.mem_cons_of_mem x hc2) h2)
        b res (hI init x (List.mem_cons_self x xs) hinit b hfx) hrest a hmem

/-- Carving only adds floor: every floor cell survives. -/
theorem carveConnection_mono {g g2 : Grid} {p q : Vec}
    (hrun : carveConnection g p q = .ok g2) :
    ∀ x y : Int, cellAt g x y = Tile.floor → cellAt g2 x y = Tile.floor := by
  unfold carveConnection at hrun
  intro x y hfl
  refine foldlM_invariant (fun gg => cellAt gg x y = Tile.floor) _ (carvePath p q)
    ?_ g g2 hfl hrun
  intro acc c _ hacc b2 hb2
  rw [writeCell_eq hb2]
  exact cellAt_setCellQ_keep (by intro h; cases h) hacc

/-- On a rectangular grid, a successful carve makes every path cell floor. -/
theorem carveConnection_path_floor {g g2 : Grid} {w h : Int} {p q : Vec}
    (hsh : gridShaped g w h) (hp : inBounds w h p) (hq : inBounds w h q)
    (hrun : carveConnection g p q = .ok g2) :
    ∀ c ∈ carvePath p q, cellAt g2 c.1 c.2 = Tile.floor := by
  unfold carveConnection at hrun
  refine foldlM_establish (fun gg => gridShaped gg w h)
    (fun c gg => cellAt gg c.1 c.2 = Tile.floor) (carvePath p q)
    ?_ ?_ ?_ g g2 hsh hrun
  · intro acc c hc hacc b hb
    have hcb := carvePath_bounds hp hq c hc
    exact writeCell_shape_inv hacc hcb.1 hcb.2.1 hb
  · intro acc c hc hacc b hb
    have hcb := carvePath_bounds hp hq c hc
    rw [writeCell_eq hb]
    refine cellAt_setCellQ_same Tile.floor hcb.1 hcb.2.2.1 ?_
    have hlen := hacc.1
    have h0 := hcb.2.2.1
    have h1 := hcb.2.2.2
    omega
  · intro acc a c hc hp2 b2 hb2
    rw [writeCell_eq hb2]
    exact cellAt_setCellQ_keep (by intro hx; cases hx) hp2

theorem carvePath_covers_h {p q : Vec} {x : Int}
    (hx1 : min p.1 q.1 ≤ x) (hx2 : x ≤ max p.1 q.1) : (x, p.2) ∈ carvePath p q := by
  unfold carvePath
  dsimp only
  rw [List.mem_append, List.mem_append]
  by_cases hxq : x = q.1
  · by_cases hyq : p.2 = q.2
    · refine Or.inr (List.mem_singleton.mpr ?_)
      rw [Prod.mk.injEq]
      exact ⟨hxq, hyq⟩
    · refine Or.inl (Or.inr (List.mem_map.mpr ⟨0, List.mem_range.mpr (by omega), ?_⟩))
      dsimp only
      rw [Prod.mk.injEq]
      constructor
      · omega
      · simp only [Int.ofNat_eq_coe]
        omega
  · by_cases hlt : p.1 < q.1
    · refine Or.inl (Or.inl (List.mem_map.mpr ⟨(x - p.1).toNat,
        List.mem_range.mpr (by omega), ?_⟩))
      rw [if_pos hlt, Prod.mk.injEq]
      constructor
      · simp only [Int.ofNat_eq_coe]
        omega
      · rfl
    · refine Or.inl (Or.inl (List.mem_map.mpr ⟨(p.1 - x).toNat,
        List.mem_range.mpr (by omega), ?_⟩))
      rw [if_neg hlt, Prod.mk.injEq]
      constructor
      · simp only [Int.ofNat_eq_coe]
        omega
      · rfl

theorem carvePath_covers_v {p q : Vec} {y : Int}
    (hy1 : min p.2 q.2 ≤ y) (hy2 : y ≤ max p.2 q.2) : (q.1, y) ∈ carvePath p q := by
  unfold carvePath
  dsimp only
  rw [List.mem_append, List.mem_append]
  by_cases hyq : y = q.2
  · refine Or.inr (List.mem_singleton.mpr ?_)
    rw [Prod.mk.injEq]
    exact ⟨rfl, hyq⟩
  · by_cases hlt : p.2 < q.2
    · refine Or.inl (Or.inr (List.mem_map.mpr ⟨(y - p.2).toNat,
        List.mem_range.mpr (by omega), ?_⟩))
      rw [if_pos hlt, Prod.mk.injEq]
      constructor
      · rfl
      · simp only [Int.ofNat_eq_coe]
        omega
    · refine Or.inl (Or.inr (List.mem_map.mpr ⟨(p.2 - y).toNat,
        List.mem_range.mpr (by omega), ?_⟩))
      rw [if_neg hlt, Prod.mk.injEq]
      constructor
      · rfl
      · simp only [Int.ofNat_eq_coe]
        omega

/-- A successful carve connects its two endpoints in the resulting grid. -/
theorem carveConnection_reach {g g2 : Grid} {w h : Int} {p q : Vec}
    (hsh : gridShaped g w h) (hp : inBounds w h p) (hq : inBounds w h q)
    (hrun : carveConnection g p q = .ok g2) : floorReach g2 p q := by
  have hfl := carveConnection_path_floor hsh hp hq hrun
  have hmid : floorReach g2 (p.1, p.2) (q.1, p.2) := by
    refine reach_horiz g2 p.2 (q.1 - p.1).natAbs p.1 q.1 rfl ?_
    intro x hx1 hx2
    exact hfl (x, p.2) (carvePath_covers_h hx1 hx2)
  have hend : floorReach g2 (q.1, p.2) (q.1, q.2) := by
    refine reach_vert g2 q.1 (q.2 - p.2).natAbs p.2 q.2 rfl ?_
    intro y hy1 hy2
    exact hfl (q.1, y) (carvePath_covers_v hy1 hy2)
  exact Relation.ReflTransGen.trans hmid hend

theorem closestPair_some {r1 r2 : List Vec} (h1 : r1 ≠ []) (h2 : r2 ≠ []) :
    ∃ pq, closestPair r1 r2 = some pq := by
  unfold closestPair
  suffices hs : ∃ t, (r1.foldl (fun acc p1 => r2.foldl (fun acc2 p2 =>
      let d := (p1.1 - p2.1).natAbs + (p1.2 - p2.2).natAbs
      match acc2 with
      | none => some (p1, p2, d)
      | some (q1, q2, bd) => if d < bd then some (p1, p2, d) else some (q1, q2, bd))
      acc) none) = some t by
    obtain ⟨t, ht⟩ := hs
    rw [ht]
    exact ⟨(t.1, t.2.1), rfl⟩
  have hinner : ∀ (acc : Option (Vec × Vec × Nat)) (p1 : Vec),
      (acc ≠ none ∨ r2 ≠ []) →
      (r2.foldl (fun acc2 p2 =>
        let d := (p1.1 - p2.1).natAbs + (p1.2 - p2.2).natAbs
        match acc2 with
        | none => some (p1, p2, d)
        | some (q1, q2, bd) => if d < bd then some (p1, p2, d) else some (q1, q2, bd))
        acc) ≠ none := by
    intro acc p1 hne
    cases r2 with
    | nil =>
      rcases hne with hne | hne
      · exact hne
      · exact absurd rfl hne
    | cons b bs =>
      rw [List.foldl_cons]
      apply foldl_preserve_mem (fun acc2 : Option (Vec × Vec × Nat) => acc2 ≠ none)
        _ bs ?_ _ ?_
      · intro acc2 z _ hacc2
        dsimp only
        cases acc2 with
        | none => exact absurd rfl hacc2
        | some t3 =>
          obtain ⟨q1, q2, bd⟩ := t3
          dsimp only
          split
          · intro hx
            cases hx
          · intro hx
            cases hx
      · dsimp only
        cases acc with
        | none =>
          intro hx
          cases hx
        | some t3 =>
          obtain ⟨q1, q2, bd⟩ := t3
          dsimp only
          split
          · intro hx
            cases hx
          · intro hx
            cases hx
  cases r1 with
  | nil => exact absurd rfl h1
  | cons a as =>
    rw [List.foldl_cons]
    apply Option.ne_none_iff_exists'.mp
    apply foldl_preserve_mem (fun acc2 : Option (Vec × Vec × Nat) => acc2 ≠ none)
      _ as ?_ _ ?_
    · intro acc2 p1 _ hacc2
      exact hinner acc2 p1 (Or.inl hacc2)
    · exact hinner none a (Or.inr h2)





/-- The region collected by the flood fill consists of floor cells that are
mutually reachable through 4-directional floor adjacency. -/
theorem floodFillLoop_reach {g : Grid} {w h : Int} :
    ∀ (fuel : Nat) (visited : BoolGrid) (region stack : List Vec)
      (v2 : BoolGrid) (reg2 : List Vec),
      (∀ c ∈ region, cellAt g c.1 c.2 = Tile.floor) →
      (∀ a ∈ region, ∀ b ∈ region, floorReach g a b) →
      (∀ c ∈ stack, (∃ rc ∈ region, c ∈ neighborList rc) ∨ region = []) →
      (region = [] → stack.length ≤ 1) →
      floodFillLoop g w h fuel visited region stack = .ok (v2, reg2) →
      (∀ c ∈ reg2, cellAt g c.1 c.2 = Tile.floor) ∧
      (∀ a ∈ reg2, ∀ b ∈ reg2, floorReach g a b) := by
  intro fuel
  induction fuel with
  | zero =>
    intro visited region stack v2 reg2 _ _ _ _ hrun
    cases hrun
  | succ fuel ih =>
    intro visited region stack v2 reg2 hfl hreach hstk hemp hrun
    cases stack with
    | nil =>
      have hred : floodFillLoop g w h (fuel + 1) visited region [] =
          .ok (visited, region.reverse) := rfl
      rw [hred] at hrun
      simp only [Except.ok.injEq, Prod.mk.injEq] at hrun
      obtain ⟨rfl, rfl⟩ := hrun
      constructor
      · intro c hc
        exact hfl c (List.mem_reverse.mp hc)
      · intro a ha b hb
        exact hreach a (List.mem_reverse.mp ha) b (List.mem_reverse.mp hb)
    | cons p rest =>
      obtain ⟨x, y⟩ := p
      simp only [floodFillLoop] at hrun
      split at hrun
      · refine ih visited region rest v2 reg2 hfl hreach ?_ ?_ hrun
        · intro c hc
          exact hstk c (List.mem_cons_of_mem _ hc)
        · intro hr
          have := hemp hr
          simp only [List.length_cons] at this
          omega
      · rename_i hcond
        push_neg at hcond
        have hxyfl : cellAt g x y = Tile.floor := hcond.2.2.2.2.2
        refine ih _ ((x, y) :: region) _ v2 reg2 ?_ ?_ ?_ ?_ hrun
        · intro c hc
          rcases List.mem_cons.mp hc with rfl | hc2
          · exact hxyfl
          · exact hfl c hc2
        · cases hre : region with
          | nil =>
            intro a ha b hb
            rw [List.mem_singleton.mp ha, List.mem_singleton.mp hb]
            exact Relation.ReflTransGen.refl
          | cons r0 rs =>
            have hnb : ∃ rc ∈ region, (x, y) ∈ neighborList rc := by
              rcases hstk (x, y) (List.mem_cons_self _ _) with h1 | h1
              · exact h1
              · rw [h1] at hre
                cases hre
            obtain ⟨rc, hrc, hadj⟩ := hnb
            have hadj2 : floorAdj g rc (x, y) := ⟨hfl rc hrc, hxyfl, hadj⟩
            rw [← hre]
            intro a ha b hb
            rcases List.mem_cons.mp ha with rfl | ha2
            · rcases List.mem_cons.mp hb with rfl | hb2
              · exact Relation.ReflTransGen.refl
              · refine Relation.ReflTransGen.head (floorAdj_symm hadj2) ?_
                exact hreach rc hrc b hb2
            · rcases List.mem_cons.mp hb with rfl | hb2
              · refine Relation.ReflTransGen.tail (hreach a ha2 rc hrc) hadj2
              · exact hreach a ha2 b hb2
        · intro c hc
          rcases List.mem_cons.mp hc with rfl | hc2
          · refine Or.inl ⟨(x, y), List.mem_cons_self _ _, ?_⟩
            simp [neighborList]
          · rcases List.mem_cons.mp hc2 with rfl | hc3
            · refine Or.inl ⟨(x, y), List.mem_cons_self _ _, ?_⟩
              simp [neighborList]
            · rcases List.mem_cons.mp hc3 with rfl | hc4
              · refine Or.inl ⟨(x, y), List.mem_cons_self _ _, ?_⟩
                simp [neighborList]
              · rcases List.mem_cons.mp hc4 with rfl | hc5
                · refine Or.inl ⟨(x, y), List.mem_cons_self _ _, ?_⟩
                  simp [neighborList]
                · rcases hstk c (List.mem_cons_of_mem _ hc5) with h1 | h1
                  · obtain ⟨rc, hrc, hadj⟩ := h1
                    exact Or.inl ⟨rc, List.mem_cons_of_mem _ hrc, hadj⟩
                  · exfalso
                    have := hemp h1
                    simp only [List.length_cons] at this
                    have : rest = [] := by
                      cases rest with
                      | nil => rfl
                      | cons q qs => simp at this
                    rw [this] at hc5
                    cases hc5
        · intro hr
          cases hr





/-- Folding the connector over the remaining regions links every cell of
every remaining region to every cell of the first region. -/
theorem connectFold_reach {g : Grid} {w h : Int} {first : List Vec}
    (hfirst : (∀ c ∈ first, cellAt g c.1 c.2 = Tile.floor ∧ inBounds w h c) ∧
      (∀ a ∈ first, ∀ b ∈ first, floorReach g a b) ∧ first ≠ []) :
    ∀ (others : List (List Vec)) (gg gF : Grid),
      gridShaped gg w h →
      (∀ x y : Int, cellAt g x y = Tile.floor → cellAt gg x y = Tile.floor) →
      (∀ r ∈ others, (∀ c ∈ r, cellAt g c.1 c.2 = Tile.floor ∧ inBounds w h c) ∧
        (∀ a ∈ r, ∀ b ∈ r, floorReach g a b) ∧ r ≠ []) →
      others.foldlM (fun a r => connectRegions a first r) gg = .ok gF →
      gridShaped gF w h ∧
      (∀ x y : Int, cellAt gg x y = Tile.floor → cellAt gF x y = Tile.floor) ∧
      (∀ r ∈ others, ∀ p ∈ r, ∀ c ∈ first, floorReach gF p c) := by
  intro others
  induction others with
  | nil =>
    intro gg gF hshape hmono _ hrun
    simp only [List.foldlM] at hrun
    cases hrun
    exact ⟨hshape, fun x y hf => hf,
      fun r hr => absurd hr (List.not_mem_nil r)⟩
  | cons r rs ih =>
    intro gg gF hshape hmono hregs hrun
    have hcons : (r :: rs).foldlM (fun a r => connectRegions a first r) gg =
        connectRegions gg first r >>= fun b =>
          rs.foldlM (fun a r => connectRegions a first r) b := rfl
    rw [hcons] at hrun
    obtain ⟨g3, hstep, hrest⟩ := exBind_ok_iff.mp hrun
    have hrprops := hregs r (List.mem_cons_self r rs)
    unfold connectRegions at hstep
    obtain ⟨⟨a, b⟩, hcp⟩ := closestPair_some hfirst.2.2 hrprops.2.2
    rw [hcp] at hstep
    have hmem := closestPair_mem hcp
    have hainb := (hfirst.1 a hmem.1).2
    have hbinb := (hrprops.1 b hmem.2).2
    have hsh3 : gridShaped g3 w h := carveConnection_shape hshape hainb hbinb hstep
    have hmono3 := carveConnection_mono hstep
    have hreach_ab : floorReach g3 a b :=
      carveConnection_reach hshape hainb hbinb hstep
    obtain ⟨hshF, hmonoF, hreachF⟩ := ih g3 gF hsh3
      (fun x y hf => hmono3 x y (hmono x y hf))
      (fun r2 hr2 => hregs r2 (List.mem_cons_of_mem r hr2)) hrest
    have hmonoGF : ∀ x y : Int, cellAt g x y = Tile.floor →
        cellAt gF x y = Tile.floor :=
      fun x y hf => hmonoF x y (hmono3 x y (hmono x y hf))
    refine ⟨hshF, fun x y hf => hmonoF x y (hmono3 x y hf), ?_⟩
    intro r2 hr2 p hp c hc
    rcases List.mem_cons.mp hr2 with rfl | hr3
    · have h1 : floorReach gF p b :=
        floorReach_mono hmonoGF (hrprops.2.1 p hp b hmem.2)
      have h2 : floorReach gF b a :=
        floorReach_mono hmonoF (floorReach_symm hreach_ab)
      have h3 : floorReach gF a c :=
        floorReach_mono hmonoGF (hfirst.2.1 a hmem.1 c hc)
      exact Relation.ReflTransGen.trans h1 (Relation.ReflTransGen.trans h2 h3)
    · exact hreachF r2 hr3 p hp c hc

/-- Every region the scan keeps consists of in-bounds, mutually reachable
floor cells, and is nonempty. -/
theorem scanRegions_props {g : Grid} {w h : Int} {regions : List (List Vec)}
    (hsh : gridShaped g w h) (hscan : scanRegions g = .ok regions) :
    ∀ r ∈ regions, (∀ c ∈ r, cellAt g c.1 c.2 = Tile.floor ∧ inBounds w h c) ∧
      (∀ a ∈ r, ∀ b ∈ r, floorReach g a b) ∧ r ≠ [] := by
  unfold scanRegions at hscan
  cases g with
  | nil => cases hscan
  | cons r0 grest =>
    dsimp only at hscan
    have hw0 : ((r0.length : Nat) : Int) = w := hsh.2 r0 (List.mem_cons_self r0 grest)
    have hh0 : (((r0 :: grest).length : Nat) : Int) = h := hsh.1
    rw [hw0, hh0] at hscan
    obtain ⟨⟨v, regs⟩, hfold, hpure⟩ := exBind_ok_iff.mp hscan
    dsimp only at hpure
    cases hpure
    have hinv := foldlM_invariant
      (fun st : BoolGrid × List (List Vec) => ∀ r ∈ st.2,
        (∀ c ∈ r, cellAt (r0 :: grest) c.1 c.2 = Tile.floor ∧ inBounds w h c) ∧
        (∀ a ∈ r, ∀ b ∈ r, floorReach (r0 :: grest) a b) ∧ r ≠ [])
      _ (intRange 0 h) ?_ (mkBoolGrid w h, ([] : List (List Vec))) _
      (fun r hr => absurd hr (List.not_mem_nil r)) hfold
    · exact hinv
    · intro acc y hy hacc b2 hstep
      refine foldlM_invariant
        (fun st : BoolGrid × List (List Vec) => ∀ r ∈ st.2,
          (∀ c ∈ r, cellAt (r0 :: grest) c.1 c.2 = Tile.floor ∧ inBounds w h c) ∧
          (∀ a ∈ r, ∀ b ∈ r, floorReach (r0 :: grest) a b) ∧ r ≠ [])
        _ (intRange 0 w) ?_ acc b2 hacc hstep
      intro acc2 x hx hacc2 b3 hstep2
      split at hstep2
      · obtain ⟨⟨v1, region⟩, hff, hpure2⟩ := exBind_ok_iff.mp hstep2
        dsimp only at hpure2
        cases hpure2
        unfold floodFill at hff
        have hbounds := floodFillLoop_bounds _ _ _ _ _ _
          (fun c hc => absurd hc (List.not_mem_nil c)) hff
        have hreach := floodFillLoop_reach _ _ _ _ _ _
          (fun c hc => absurd hc (List.not_mem_nil c))
          (fun a2 ha2 => absurd ha2 (List.not_mem_nil a2))
          (fun c _ => Or.inr rfl) (fun _ => by simp) hff
        intro r hr
        dsimp only at hr
        split at hr
        · rename_i hlen
          rcases List.mem_append.mp hr with h1 | h2
          · exact hacc2 r h1
          · rw [List.mem_singleton.mp h2]
            refine ⟨fun c hc => ⟨hreach.1 c hc, hbounds c hc⟩, hreach.2, ?_⟩
            intro hn
            rw [hn] at hlen
            simp at hlen
        · exact hacc2 r hr
      · cases hstep2
        exact hacc2

/-- C1 (corrected): the connectivity repairer makes the cells of all
surviving (larger than 10 cells) floor regions of its scan mutually
reachable through 4-directional floor adjacency in the repaired grid. -/
theorem C1_repair (g g2 : Grid) (w h : Int) (regions : List (List Vec))
    (hsh : gridShaped g w h)
    (hscan : scanRegions g = .ok regions)
    (hrun : ensureConnectivity g = .ok g2) :
    ∀ r1 ∈ regions, ∀ r2 ∈ regions, ∀ p ∈ r1, ∀ q ∈ r2, floorReach g2 p q := by
  have hec := ensureConnectivity_scan g
  rw [hscan, exBind_ok] at hec
  rw [hec] at hrun
  have hprops := scanRegions_props hsh hscan
  cases regions with
  | nil => exact fun r1 hr1 => absurd hr1 (List.not_mem_nil r1)
  | cons first others =>
    dsimp only at hrun
    have hfp := hprops first (List.mem_cons_self first others)
    obtain ⟨hshF, hmonoF, hreachF⟩ := connectFold_reach
      ⟨hfp.1, hfp.2.1, hfp.2.2⟩ others g g2 hsh (fun x y hf => hf)
      (fun r hr => hprops r (List.mem_cons_of_mem first hr)) hrun
    obtain ⟨c0, hc0⟩ := List.exists_mem_of_ne_nil first hfp.2.2
    have hanchor : ∀ r ∈ first :: others, ∀ p ∈ r, floorReach g2 p c0 := by
      intro r hr p hp
      rcases List.mem_cons.mp hr with rfl | hr2
      · exact floorReach_mono hmonoF (hfp.2.1 p hp c0 hc0)
      · exact hreachF r hr2 p hp c0 hc0
    intro r1 hr1 r2 hr2 p hp q hq
    exact Relation.ReflTransGen.trans (hanchor r1 hr1 p hp)
      (floorReach_symm (hanchor r2 hr2 q hq))






/-- Witness for C1_repair: on the two-region grid the repaired layout
connects the cell (1, 1) of the first region to (3, 1) of the second. -/
theorem C1_repair_witness :
    floorReach (exGrid (ensureConnectivity c1wGrid) []) (1, 1) (3, 1) :=
  C1_repair c1wGrid (exGrid (ensureConnectivity c1wGrid) []) 5 13
    (exRegions (scanRegions c1wGrid))
    (by decide)
    (by decide)
    (by decide)
    ((exRegions (scanRegions c1wGrid)).headD []) (by decide)
    ((exRegions (scanRegions c1wGrid)).getD 1 []) (by decide)
    (1, 1) (by decide)
    (3, 1) (by decide)



end RPS
